import Mathlib

/-!
Verification of the VintageStory JSON exporter
(`io_scene_vintagestory_json/export_vintagestory_json.py`).

This file gives a shallow embedding of the exporter's data model and
operations, and proves (or refutes) the frozen claims C1..C10 about it.

Modelling conventions:
* Python floats are modelled by `ℚ` wherever the code only performs
  field arithmetic and comparisons (vectors, UVs, clamping, the atlas);
  the rotation-reduction pipeline, which manipulates radian angles and
  trigonometric rotation matrices, is modelled over `ℝ`.
* Mutable numpy arrays of shape (3,) are modelled by the `Vec3` record.
* Python dicts keyed by the six direction strings are modelled by
  association lists, so that key-set facts are real theorems.
-/

namespace VS

/-- A 3-component vector, the model of a numpy array of shape (3,)
holding Blender/VintageStory coordinates. -/
structure Vec3 where
  x : ℚ
  y : ℚ
  z : ℚ
  deriving DecidableEq, Repr

instance : Add Vec3 := ⟨fun a b => ⟨a.x + b.x, a.y + b.y, a.z + b.z⟩⟩
instance : Sub Vec3 := ⟨fun a b => ⟨a.x - b.x, a.y - b.y, a.z - b.z⟩⟩
instance : Zero Vec3 := ⟨⟨0, 0, 0⟩⟩

@[simp] theorem Vec3.add_def (a b : Vec3) :
    a + b = ⟨a.x + b.x, a.y + b.y, a.z + b.z⟩ := rfl

@[simp] theorem Vec3.sub_def (a b : Vec3) :
    a - b = ⟨a.x - b.x, a.y - b.y, a.z - b.z⟩ := rfl

@[simp] theorem Vec3.zero_def : (0 : Vec3) = ⟨0, 0, 0⟩ := rfl

/-- Model of `to_y_up(arr)`: convert Blender space to VS space,
returning `np.array([arr[1], arr[2], arr[0]])`. -/
def to_y_up (arr : Vec3) : Vec3 :=
  ⟨arr.y, arr.z, arr.x⟩

/-- Model of one `while r > 360: r -= 360` loop of `clamp_rotation`. -/
def wrapHi (x : ℚ) : ℚ :=
  if x > 360 then wrapHi (x - 360) else x
termination_by (⌈x / 360⌉).toNat
decreasing_by
  simp_wf
  have h4 : ⌈(x - 360) / 360⌉ = ⌈x / 360⌉ - 1 := by
    have h3 : (x - 360) / 360 = x / 360 - 1 := by ring
    rw [h3]
    exact_mod_cast Int.ceil_sub_int (x / 360) 1
  exact ⟨by omega, by linarith⟩

/-- Model of one `while r < -360: r += 360` loop of `clamp_rotation`. -/
def wrapLo (x : ℚ) : ℚ :=
  if x < -360 then wrapLo (x + 360) else x
termination_by (⌈(-x) / 360⌉).toNat
decreasing_by
  simp_wf
  have h4 : ⌈(-360 + -x) / 360⌉ = ⌈(-x) / 360⌉ - 1 := by
    have h3 : (-360 + -x) / 360 = (-x) / 360 - 1 := by ring
    rw [h3]
    exact_mod_cast Int.ceil_sub_int ((-x) / 360) 1
  exact ⟨by omega, by linarith⟩

/-- One component of `clamp_rotation`: the source runs the `> 360`
subtraction loop to exhaustion, then the `< -360` addition loop. -/
def clamp_component (x : ℚ) : ℚ :=
  wrapLo (wrapHi x)

/-- Model of `clamp_rotation(r)`: the source unrolls the same pair of
loops over the three components `r[0]`, `r[1]`, `r[2]`. -/
def clamp_rotation (r : Vec3) : Vec3 :=
  ⟨clamp_component r.x, clamp_component r.y, clamp_component r.z⟩

theorem wrapHi_of_le {x : ℚ} (h : ¬ x > 360) : wrapHi x = x := by
  rw [wrapHi, if_neg h]

theorem wrapLo_of_ge {x : ℚ} (h : ¬ x < -360) : wrapLo x = x := by
  rw [wrapLo, if_neg h]

theorem wrapHi_le (x : ℚ) : wrapHi x ≤ 360 := by
  induction x using wrapHi.induct with
  | case1 x h ih => rwa [wrapHi, if_pos h]
  | case2 x h => rw [wrapHi, if_neg h]; linarith

theorem wrapHi_ge {x : ℚ} (h : -360 ≤ x) : -360 ≤ wrapHi x := by
  induction x using wrapHi.induct with
  | case1 x hgt ih => rw [wrapHi, if_pos hgt]; exact ih (by linarith)
  | case2 x hle => rwa [wrapHi, if_neg hle]

theorem wrapLo_ge (x : ℚ) : -360 ≤ wrapLo x := by
  induction x using wrapLo.induct with
  | case1 x h ih => rwa [wrapLo, if_pos h]
  | case2 x h => rw [wrapLo, if_neg h]; linarith

theorem wrapLo_le {x : ℚ} (h : x ≤ 360) : wrapLo x ≤ 360 := by
  induction x using wrapLo.induct with
  | case1 x hlt ih => rw [wrapLo, if_pos hlt]; exact ih (by linarith)
  | case2 x hle => rwa [wrapLo, if_neg hle]

theorem clamp_component_mem (x : ℚ) :
    -360 ≤ clamp_component x ∧ clamp_component x ≤ 360 :=
  ⟨wrapLo_ge _, wrapLo_le (wrapHi_le x)⟩

theorem clamp_component_idem (x : ℚ) :
    clamp_component (clamp_component x) = clamp_component x := by
  obtain ⟨h1, h2⟩ := clamp_component_mem x
  unfold clamp_component
  rw [wrapHi_of_le (by exact not_lt.2 h2), wrapLo_of_ge (by exact not_lt.2 h1)]

/-! ### Color atlas (`create_color_texture`)

The pixel-buffer compositing is out of claim scope; the claims concern
the texture size and the UV rectangles, which are modelled exactly.
`math.ceil(math.sqrt(...))` and `math.ceil(math.log2(...))` are modelled
by their exact integer counterparts. -/

/-- Exact model of `math.ceil(math.sqrt(n))` for a natural number `n`. -/
def ceil_sqrt (n : ℕ) : ℕ :=
  if Nat.sqrt n * Nat.sqrt n = n then Nat.sqrt n else Nat.sqrt n + 1

/-- `color_grid_size = math.ceil(math.sqrt(len(colors) + 1))`:
number of color tiles on each axis (+1 reserves the default tile). -/
def color_grid_size (ncolors : ℕ) : ℕ :=
  ceil_sqrt (ncolors + 1)

/-- `tex_size = max(min_size, 2 ** math.ceil(math.log2(3 * color_grid_size)))`
with the default `min_size = 16`. -/
def tex_size (ncolors : ℕ) : ℕ :=
  max 16 (2 ^ Nat.clog 2 (3 * color_grid_size ncolors))

/-- UV rectangle `[x1, y1, x2, y2]` assigned to the i-th color in
`create_color_texture` (`color_tex_uv_map`); each value is a proportion
of the image scaled to the 0..16 convention. -/
def color_uv (ncolors i : ℕ) : ℚ × ℚ × ℚ × ℚ :=
  ((3 * ((i % color_grid_size ncolors : ℕ) : ℚ) + 1) / (tex_size ncolors : ℚ) * 16,
   (3 * ((i / color_grid_size ncolors : ℕ) : ℚ) + 1) / (tex_size ncolors : ℚ) * 16,
   (3 * ((i % color_grid_size ncolors : ℕ) : ℚ) + 2) / (tex_size ncolors : ℚ) * 16,
   (3 * ((i / color_grid_size ncolors : ℕ) : ℚ) + 2) / (tex_size ncolors : ℚ) * 16)

/-- `default_color_uv`: the tile right after the last color
(`idx = len(colors)`), same formula as `color_uv`. -/
def default_color_uv (ncolors : ℕ) : ℚ × ℚ × ℚ × ℚ :=
  ((3 * ((ncolors % color_grid_size ncolors : ℕ) : ℚ) + 1) / (tex_size ncolors : ℚ) * 16,
   (3 * ((ncolors / color_grid_size ncolors : ℕ) : ℚ) + 1) / (tex_size ncolors : ℚ) * 16,
   (3 * ((ncolors % color_grid_size ncolors : ℕ) : ℚ) + 2) / (tex_size ncolors : ℚ) * 16,
   (3 * ((ncolors / color_grid_size ncolors : ℕ) : ℚ) + 2) / (tex_size ncolors : ℚ) * 16)

/-- Strict separation of two axis-aligned rectangles `(x1, y1, x2, y2)`:
they are disjoint in x or disjoint in y. -/
def RectDisjoint (a b : ℚ × ℚ × ℚ × ℚ) : Prop :=
  a.2.2.1 < b.1 ∨ b.2.2.1 < a.1 ∨ a.2.2.2 < b.2.1 ∨ b.2.2.2 < a.2.1

instance (a b : ℚ × ℚ × ℚ × ℚ) : Decidable (RectDisjoint a b) := by
  unfold RectDisjoint; infer_instance

theorem ceil_sqrt_isLeast (n : ℕ) : IsLeast {m : ℕ | n ≤ m * m} (ceil_sqrt n) := by
  constructor
  · unfold ceil_sqrt
    split
    · simp_all
    · exact le_of_lt (Nat.lt_succ_sqrt n)
  · intro m hm
    simp only [Set.mem_setOf_eq] at hm
    unfold ceil_sqrt
    split
    · rename_i he
      have : Nat.sqrt n ≤ Nat.sqrt (m * m) := Nat.sqrt_le_sqrt hm
      rwa [Nat.sqrt_eq m] at this
    · rename_i he
      by_contra hc
      push_neg at hc
      have hm' : m ≤ Nat.sqrt n := by omega
      have h1 : m * m ≤ Nat.sqrt n * Nat.sqrt n := Nat.mul_le_mul hm' hm'
      have h2 : Nat.sqrt n * Nat.sqrt n ≤ n := Nat.sqrt_le n
      omega

theorem tex_size_pos (ncolors : ℕ) : 0 < tex_size ncolors :=
  lt_of_lt_of_le (by norm_num) (le_max_left _ _)

theorem ncolors_lt_grid_sq (ncolors : ℕ) :
    ncolors < color_grid_size ncolors * color_grid_size ncolors :=
  lt_of_lt_of_le (Nat.lt_succ_self _) (ceil_sqrt_isLeast (ncolors + 1)).1

/-- Cells of distinct indices are distinct as (col, row) pairs. -/
theorem cell_injective {g i j : ℕ} (hij : i ≠ j) :
    i % g ≠ j % g ∨ i / g ≠ j / g := by
  by_contra hc
  push_neg at hc
  obtain ⟨h1, h2⟩ := hc
  have hi := Nat.div_add_mod i g
  have hj := Nat.div_add_mod j g
  rw [h1, h2] at hi
  omega

/-- The closing x2 of an earlier tile lies strictly left of the
opening x1 of a later tile (same for rows). -/
theorem uv_tile_sep {u v : ℕ} (ncolors : ℕ) (huv : u < v) :
    (3 * (u : ℚ) + 2) / (tex_size ncolors : ℚ) * 16 <
      (3 * (v : ℚ) + 1) / (tex_size ncolors : ℚ) * 16 := by
  have hts : (0 : ℚ) < (tex_size ncolors : ℚ) := by
    exact_mod_cast tex_size_pos ncolors
  have h1 : 3 * (u : ℚ) + 2 < 3 * (v : ℚ) + 1 := by
    have h2 : (u : ℚ) + 1 ≤ (v : ℚ) := by exact_mod_cast huv
    linarith
  gcongr

theorem color_uv_disjoint_aux (ncolors i j : ℕ) (hij : i ≠ j) :
    RectDisjoint (color_uv ncolors i) (color_uv ncolors j) := by
  rcases cell_injective (g := color_grid_size ncolors) hij with h | h
  · rcases Nat.lt_or_ge (i % color_grid_size ncolors) (j % color_grid_size ncolors) with hlt | hge
    · exact Or.inl (uv_tile_sep ncolors hlt)
    · exact Or.inr (Or.inl (uv_tile_sep ncolors (lt_of_le_of_ne hge (Ne.symm h))))
  · rcases Nat.lt_or_ge (i / color_grid_size ncolors) (j / color_grid_size ncolors) with hlt | hge
    · exact Or.inr (Or.inr (Or.inl (uv_tile_sep ncolors hlt)))
    · exact Or.inr (Or.inr (Or.inr (uv_tile_sep ncolors (lt_of_le_of_ne hge (Ne.symm h)))))

/-- C5: the atlas side length is the least power of two that is ≥ 16 and
≥ `3 * ceil(sqrt(N+1))` (where `ceil_sqrt` is exactly the ceiling of the
square root); color `i` gets the UV rectangle
`((3*col+1)/size*16 .. (3*col+2)/size*16)` per axis with
`col = i % grid`, `row = i / grid`; the rectangles of distinct colors
are pairwise disjoint; and the default rectangle (index N) never
collides with an assigned color rectangle. -/
theorem C5_color_atlas (ncolors : ℕ) :
    IsLeast {s : ℕ | (∃ k, s = 2 ^ k) ∧ 16 ≤ s ∧
        3 * ceil_sqrt (ncolors + 1) ≤ s} (tex_size ncolors) ∧
    IsLeast {m : ℕ | ncolors + 1 ≤ m * m} (ceil_sqrt (ncolors + 1)) ∧
    (∀ i, color_uv ncolors i =
      ((3 * ((i % color_grid_size ncolors : ℕ) : ℚ) + 1) / (tex_size ncolors : ℚ) * 16,
       (3 * ((i / color_grid_size ncolors : ℕ) : ℚ) + 1) / (tex_size ncolors : ℚ) * 16,
       (3 * ((i % color_grid_size ncolors : ℕ) : ℚ) + 2) / (tex_size ncolors : ℚ) * 16,
       (3 * ((i / color_grid_size ncolors : ℕ) : ℚ) + 2) / (tex_size ncolors : ℚ) * 16)) ∧
    (∀ i j, i < ncolors → j < ncolors → i ≠ j →
      RectDisjoint (color_uv ncolors i) (color_uv ncolors j)) ∧
    (∀ i, i < ncolors →
      RectDisjoint (color_uv ncolors i) (default_color_uv ncolors)) := by
  refine ⟨⟨⟨?_, le_max_left _ _, ?_⟩, ?_⟩, ceil_sqrt_isLeast _, fun i => rfl,
    fun i j _ _ hij => color_uv_disjoint_aux ncolors i j hij, fun i hi => ?_⟩
  · unfold tex_size
    rcases le_total 16 (2 ^ Nat.clog 2 (3 * color_grid_size ncolors)) with h | h
    · exact ⟨Nat.clog 2 (3 * color_grid_size ncolors), by omega⟩
    · exact ⟨4, by omega⟩
  · calc 3 * ceil_sqrt (ncolors + 1)
        ≤ 2 ^ Nat.clog 2 (3 * color_grid_size ncolors) :=
          Nat.le_pow_clog (by norm_num) _
      _ ≤ tex_size ncolors := le_max_right _ _
  · rintro s ⟨⟨k, rfl⟩, h16, h3g⟩
    refine max_le h16 (Nat.pow_le_pow_right (by norm_num) ?_)
    exact (Nat.le_pow_iff_clog_le (by norm_num)).1 h3g
  · have : default_color_uv ncolors = color_uv ncolors ncolors := rfl
    rw [this]
    exact color_uv_disjoint_aux ncolors i ncolors (Nat.ne_of_lt hi)

/-- Witness for C5 with two colors: tiles 0 and 1 are disjoint, and
tile 0 never collides with the default tile. -/
theorem C5_witness :
    RectDisjoint (color_uv 2 0) (color_uv 2 1) ∧
    RectDisjoint (color_uv 2 0) (default_color_uv 2) :=
  ⟨(C5_color_atlas 2).2.2.2.1 0 1 (by norm_num) (by norm_num) (by norm_num),
   (C5_color_atlas 2).2.2.2.2 0 (by norm_num)⟩

/-! ### Animation action metadata (`save_all_animations`, lines 998–1016)

A pose marker carries a name and an integer frame.  The source walks
`action.pose_markers` updating `(quantity_frames, on_activity_stopped,
on_animation_end)`, then falls back to the last sampled keyframe.
Marker names are modelled as `List Char` (Python `str`), keyframes by
the list of their (integer) frames in sampling order. -/

/-- A Blender pose marker: a name and a frame number. -/
structure PoseMarker where
  name : List Char
  frame : ℤ
  deriving DecidableEq, Repr

/-- One iteration of the `for marker in action.pose_markers` loop:
`onActivityStopped_` is tested first, then `onAnimationEnd_`; the
latter sets `quantity_frames = marker.frame + 1` and the end behavior
name (`marker.name[15:]`). -/
def marker_step (s : Option ℤ × List Char × List Char) (m : PoseMarker) :
    Option ℤ × List Char × List Char :=
  if ("onActivityStopped_".toList).isPrefixOf m.name then
    (s.1, m.name.drop 18, s.2.2)
  else if ("onAnimationEnd_".toList).isPrefixOf m.name then
    (some (m.frame + 1), s.2.1, m.name.drop 15)
  else s

/-- The marker loop, starting from
`quantity_frames = None`, `on_activity_stopped = "Stop"`,
`on_animation_end = "Stop"`. -/
def parse_pose_markers (markers : List PoseMarker) :
    Option ℤ × List Char × List Char :=
  markers.foldl marker_step (none, "Stop".toList, "Stop".toList)

/-- Exported `quantityframes`: the marker value if set, else
`last keyframe frame + 1`, else `0` (lines 1011–1016). -/
def quantity_frames (markers : List PoseMarker) (keyframe_frames : List ℤ) : ℤ :=
  match (parse_pose_markers markers).1 with
  | some q => q
  | none => if keyframe_frames = [] then 0 else keyframe_frames.getLastD 0 + 1

/-- Exported `onAnimationEnd` behavior name. -/
def on_animation_end (markers : List PoseMarker) : List Char :=
  (parse_pose_markers markers).2.2

/-- The markers whose names carry the `onAnimationEnd_` prefix. -/
def end_markers (markers : List PoseMarker) : List PoseMarker :=
  markers.filter (fun m => ("onAnimationEnd_".toList).isPrefixOf m.name)

theorem activity_prefix_not_end {s : List Char}
    (h : ("onActivityStopped_".toList).isPrefixOf s = true) :
    ("onAnimationEnd_".toList).isPrefixOf s = false := by
  by_contra hc
  rw [Bool.not_eq_false] at hc
  rcases List.prefix_or_prefix_of_prefix (List.isPrefixOf_iff_prefix.mp h)
    (List.isPrefixOf_iff_prefix.mp hc) with hp | hp
  · exact absurd hp (by decide)
  · exact absurd hp (by decide)

theorem end_markers_cons (m : PoseMarker) (rest : List PoseMarker) :
    end_markers (m :: rest) =
      if ("onAnimationEnd_".toList).isPrefixOf m.name then m :: end_markers rest
      else end_markers rest := by
  unfold end_markers
  rw [List.filter_cons]

theorem parse_pose_markers_fold (markers : List PoseMarker)
    (s : Option ℤ × List Char × List Char) :
    (markers.foldl marker_step s).1 =
      (match (end_markers markers).getLast? with
       | some m => some (m.frame + 1)
       | none => s.1) ∧
    (markers.foldl marker_step s).2.2 =
      (match (end_markers markers).getLast? with
       | some m => m.name.drop 15
       | none => s.2.2) := by
  induction markers generalizing s with
  | nil => exact ⟨rfl, rfl⟩
  | cons m rest ih =>
    rw [List.foldl_cons, end_markers_cons]
    cases hE : ("onAnimationEnd_".toList).isPrefixOf m.name with
    | false =>
      rw [if_neg Bool.false_ne_true]
      cases hA : ("onActivityStopped_".toList).isPrefixOf m.name with
      | false =>
        have hstep : marker_step s m = s := by
          unfold marker_step
          rw [hA, hE]
          simp
        rw [hstep]
        exact ih s
      | true =>
        have hstep : marker_step s m = (s.1, m.name.drop 18, s.2.2) := by
          unfold marker_step
          rw [hA]
          simp
        rw [hstep]
        obtain ⟨ih1, ih2⟩ := ih (s.1, m.name.drop 18, s.2.2)
        exact ⟨ih1, ih2⟩
    | true =>
      have hA : ("onActivityStopped_".toList).isPrefixOf m.name = false := by
        by_contra hc
        rw [Bool.not_eq_false] at hc
        rw [activity_prefix_not_end hc] at hE
        exact Bool.false_ne_true hE
      have hstep : marker_step s m = (some (m.frame + 1), s.2.1, m.name.drop 15) := by
        unfold marker_step
        rw [hA, hE]
        simp
      rw [if_pos rfl, hstep, List.getLast?_cons]
      obtain ⟨ih1, ih2⟩ := ih (some (m.frame + 1), s.2.1, m.name.drop 15)
      cases hl : (end_markers rest).getLast? with
      | none =>
        rw [hl] at ih1 ih2
        exact ⟨ih1, ih2⟩
      | some x =>
        rw [hl] at ih1 ih2
        exact ⟨ih1, ih2⟩

/-- C6: if a pose marker named `onAnimationEnd_<name>` exists, the
exported `quantityframes` is set from that marker (the last such
marker, value `frame + 1`) and `<name>` becomes the `onAnimationEnd`
behavior; otherwise `quantityframes` is one past the last sampled
keyframe's frame, or 0 if there are no keyframes. -/
theorem C6_quantity_frames (markers : List PoseMarker) (kfs : List ℤ) :
    quantity_frames markers kfs =
      (match (end_markers markers).getLast? with
       | some m => m.frame + 1
       | none => if kfs = [] then 0 else kfs.getLastD 0 + 1) ∧
    on_animation_end markers =
      (match (end_markers markers).getLast? with
       | some m => m.name.drop 15
       | none => "Stop".toList) := by
  obtain ⟨h1, h2⟩ := parse_pose_markers_fold markers (none, "Stop".toList, "Stop".toList)
  constructor
  · unfold quantity_frames parse_pose_markers
    rw [h1]
    cases (end_markers markers).getLast? with
    | none => rfl
    | some m => rfl
  · unfold on_animation_end parse_pose_markers
    rw [h2]

/-! ### Color/texture resolver (`get_material_color`, `get_object_color`)

Blender's shader-node graph is modelled by the attributes the source
actually probes: a material optionally has a node tree (a list of
nodes); a node optionally has a "Base Color" input and/or a "Color"
input; an input has a list of links (each link's `from_node` is either
an image-texture node, with an optional image, or something else) and
an RGBA `default_value`. -/

/-- Model of the source's `TextureInfo` (path + pixel size). -/
structure TextureInfo where
  path : String
  width : ℕ
  height : ℕ
  deriving DecidableEq, Repr

/-- What `get_material_color`/`get_object_color` produce: a solid RGBA
color tuple or a texture reference. -/
inductive ColorOrTexture where
  | color (c : ℚ × ℚ × ℚ × ℚ)
  | texture (t : TextureInfo)
  deriving DecidableEq, Repr

/-- A Blender image datablock: `filepath` plus pixel size. -/
structure ImageRef where
  filepath : String
  width : ℕ
  height : ℕ
  deriving DecidableEq, Repr

/-- The `from_node` of a node link: an image-texture shader node
(`ShaderNodeTexImage`, whose `image` may be `None`) or any other node. -/
inductive ShaderNodeSource where
  | texImage (image : Option ImageRef)
  | other
  deriving DecidableEq, Repr

/-- A color-bearing node input: its links and its RGBA default value. -/
structure NodeInput where
  links : List ShaderNodeSource
  default_value : ℚ × ℚ × ℚ × ℚ
  deriving DecidableEq, Repr

/-- A shader node, reduced to the two inputs the source probes:
`n.inputs["Base Color"]` and `n.inputs["Color"]` (each present or not). -/
structure ShaderNode where
  base_color : Option NodeInput
  color_input : Option NodeInput
  deriving DecidableEq, Repr

/-- A material: `mat.node_tree` is `None` or holds a node list. -/
structure Material where
  node_tree : Option (List ShaderNode)
  deriving DecidableEq, Repr

/-- The `for link in node_color.links` scan: the first link whose
`from_node` is a `ShaderNodeTexImage` with a non-`None` image and a
nonempty filepath yields a `TextureInfo`. -/
def find_texture_link : List ShaderNodeSource → Option TextureInfo
  | [] => none
  | ShaderNodeSource.texImage (some img) :: rest =>
      if img.filepath ≠ "" then some ⟨img.filepath, img.width, img.height⟩
      else find_texture_link rest
  | ShaderNodeSource.texImage none :: rest => find_texture_link rest
  | ShaderNodeSource.other :: rest => find_texture_link rest

/-- The `for n in mat.node_tree.nodes` scan of `get_material_color`:
the first node with a "Base Color" input wins (texture link first, else
the RGBA default); otherwise the first node with a "Color" input wins. -/
def nodes_color : List ShaderNode → Option ColorOrTexture
  | [] => none
  | n :: rest =>
    match n.base_color with
    | some inp =>
        match find_texture_link inp.links with
        | some t => some (ColorOrTexture.texture t)
        | none => some (ColorOrTexture.color inp.default_value)
    | none =>
        match n.color_input with
        | some inp => some (ColorOrTexture.color inp.default_value)
        | none => nodes_color rest

/-- Model of `get_material_color(mat)`: `None` when the material has no
node tree or no color-bearing node. -/
def get_material_color (mat : Material) : Option ColorOrTexture :=
  match mat.node_tree with
  | none => none
  | some nodes => nodes_color nodes

/-- Model of `get_object_color(obj, material_index, default_color)`;
`material_slots` is the object's slot list (a slot's material may be
`None`). -/
def get_object_color (material_slots : List (Option Material))
    (material_index : ℕ) (default_color : ℚ × ℚ × ℚ × ℚ) : ColorOrTexture :=
  if h : material_index < material_slots.length then
    match material_slots.get ⟨material_index, h⟩ with
    | some mat =>
        match get_material_color mat with
        | some c => c
        | none => ColorOrTexture.color default_color
    | none => ColorOrTexture.color default_color
  else ColorOrTexture.color default_color

/-- The material has no node carrying a "Base Color" or "Color" input
(this includes having no node tree at all). -/
def material_has_no_color_node (mat : Material) : Prop :=
  mat.node_tree = none ∨
    ∃ nodes, mat.node_tree = some nodes ∧
      ∀ n ∈ nodes, n.base_color = none ∧ n.color_input = none

theorem nodes_color_of_no_color {nodes : List ShaderNode}
    (h : ∀ n ∈ nodes, n.base_color = none ∧ n.color_input = none) :
    nodes_color nodes = none := by
  induction nodes with
  | nil => rfl
  | cons n rest ih =>
    obtain ⟨hb, hc⟩ := h n (List.mem_cons_self n rest)
    unfold nodes_color
    rw [hb, hc]
    exact ih fun n hn => h n (List.mem_cons_of_mem _ hn)

theorem get_material_color_of_no_color {mat : Material}
    (h : material_has_no_color_node mat) : get_material_color mat = none := by
  rcases h with h | ⟨nodes, hn, hall⟩
  · unfold get_material_color
    rw [h]
  · unfold get_material_color
    rw [hn]
    exact nodes_color_of_no_color hall

/-- C10: the color resolver returns the default color `(0, 0, 0, 1)`
whenever the slot index is out of range, the slot holds no material, or
the material has no color-bearing node (including no node tree); and it
always returns either an RGBA tuple or a texture reference (it is a
total function — no error is ever raised). -/
theorem C10_get_object_color_default (slots : List (Option Material)) (idx : ℕ) :
    ((¬ idx < slots.length ∨
      (∃ h : idx < slots.length, slots.get ⟨idx, h⟩ = none) ∨
      (∃ (h : idx < slots.length) (mat : Material),
        slots.get ⟨idx, h⟩ = some mat ∧ material_has_no_color_node mat)) →
      get_object_color slots idx (0, 0, 0, 1) = ColorOrTexture.color (0, 0, 0, 1)) ∧
    ((∃ c, get_object_color slots idx (0, 0, 0, 1) = ColorOrTexture.color c) ∨
     (∃ t, get_object_color slots idx (0, 0, 0, 1) = ColorOrTexture.texture t)) := by
  constructor
  · rintro (h | ⟨h, hnone⟩ | ⟨h, mat, hmat, hnc⟩)
    · unfold get_object_color
      rw [dif_neg h]
    · unfold get_object_color
      rw [dif_pos h, hnone]
    · unfold get_object_color
      rw [dif_pos h, hmat]
      dsimp only
      rw [get_material_color_of_no_color hnc]
  · unfold get_object_color
    split
    · rename_i h
      cases hs : slots.get ⟨idx, h⟩ with
      | none => exact Or.inl ⟨_, rfl⟩
      | some mat =>
        dsimp only
        cases hm : get_material_color mat with
        | none => exact Or.inl ⟨_, rfl⟩
        | some ct =>
          cases ct with
          | color c => exact Or.inl ⟨c, rfl⟩
          | texture t => exact Or.inr ⟨t, rfl⟩
    · exact Or.inl ⟨_, rfl⟩

/-- Witness for C10 at a concrete input: an empty slot list resolves
index 0 to the default color. -/
theorem C10_witness :
    get_object_color [] 0 (0, 0, 0, 1) = ColorOrTexture.color (0, 0, 0, 1) :=
  (C10_get_object_color_default [] 0).1 (Or.inl (by decide))

/-! ### Face classifier and UV reconstructor (`generate_element`, face loop)

The per-polygon pipeline of `generate_element` lines 537–692: nearest
axis classification of the face normal, winding detection, projection,
start-corner detection, lookup-table rotation and pixel-scaled UV
rectangle. -/

/-- Blender-space dot product, the `np.sum(a * b, axis=1)` of the
direction classification. -/
def dot (a b : Vec3) : ℚ := a.x * b.x + a.y * b.y + a.z * b.z

/-- The `DIRECTIONS` constant (source order). -/
def DIRECTIONS : List String := ["north", "east", "west", "south", "up", "down"]

/-- The `DIRECTION_NORMALS` constant: Blender-space normals for the six
directions, same order as `DIRECTIONS`. -/
def DIRECTION_NORMALS : List Vec3 :=
  [⟨-1, 0, 0⟩, ⟨0, 1, 0⟩, ⟨0, -1, 0⟩, ⟨1, 0, 0⟩, ⟨0, 0, 1⟩, ⟨0, 0, -1⟩]

/-- Helper for `np.argmax`: scan with current index `i`, best index and
best value; a later value replaces the best only when strictly greater,
so the first maximum wins, as `np.argmax` specifies. -/
def argmax_from (i : ℕ) (best : ℕ) (bestVal : ℚ) : List ℚ → ℕ
  | [] => best
  | v :: rest =>
    if v > bestVal then argmax_from (i + 1) i v rest
    else argmax_from (i + 1) best bestVal rest

/-- `np.argmax` over a rational list (0 on the empty list). -/
def argmax_idx : List ℚ → ℕ
  | [] => 0
  | v :: rest => argmax_from 1 0 v rest

theorem argmax_from_lt {n : ℕ} :
    ∀ (rest : List ℚ) (i best : ℕ) (bv : ℚ), best < n → i + rest.length ≤ n →
      argmax_from i best bv rest < n := by
  intro rest
  induction rest with
  | nil => intro i best bv hb _; exact hb
  | cons v r ih =>
    intro i best bv hb hi
    simp only [List.length_cons] at hi
    unfold argmax_from
    split
    · exact ih (i + 1) i v (by omega) (by omega)
    · exact ih (i + 1) best bv hb (by omega)

theorem argmax_idx_lt {l : List ℚ} (h : l ≠ []) : argmax_idx l < l.length := by
  match l with
  | [] => exact absurd rfl h
  | v :: rest =>
    show argmax_from 1 0 v rest < rest.length + 1
    exact argmax_from_lt rest 1 0 v (by omega) (by omega)

/-- Direction of a polygon (lines 555–556): argmax over the dot
products of the face normal with the six direction normals. -/
def face_direction (normal : Vec3) : String :=
  DIRECTIONS.getD (argmax_idx (DIRECTION_NORMALS.map (fun d => dot normal d))) "north"

theorem face_direction_mem (normal : Vec3) : face_direction normal ∈ DIRECTIONS := by
  unfold face_direction
  have h : argmax_idx (DIRECTION_NORMALS.map (fun d => dot normal d)) <
      (DIRECTION_NORMALS.map (fun d => dot normal d)).length :=
    argmax_idx_lt (by simp [DIRECTION_NORMALS])
  rw [List.getD_eq_getElem _ _ (by simpa using h)]
  exact List.getElem_mem _

/-- `loop_is_clockwise`'s signed area: sum over the loop of
`(x_next - x_i) * (y_next + y_i)` with cyclic successor. -/
def loop_area (coords : List (ℚ × ℚ)) : ℚ :=
  ((coords.zip (coords.rotate 1)).map
    (fun p => (p.2.1 - p.1.1) * (p.2.2 + p.1.2))).sum

/-- Model of `loop_is_clockwise`: clockwise iff the signed area is
positive. -/
def loop_is_clockwise (coords : List (ℚ × ℚ)) : Bool :=
  loop_area coords > 0

/-- The six sign-aware 2D projection rules of lines 593–604; the final
case models the source's fallthrough, which leaves the 3D vertex whose
components 0 and 1 are then used. -/
def project_vert (face_normal : Vec3) (v : Vec3) : ℚ × ℚ :=
  if face_normal.x > 1/2 then (v.y, v.z)
  else if face_normal.x < -(1/2) then (-v.y, v.z)
  else if face_normal.y > 1/2 then (-v.x, v.z)
  else if face_normal.y < -(1/2) then (v.x, v.z)
  else if face_normal.z > 1/2 then (v.y, -v.x)
  else if face_normal.z < -(1/2) then (v.y, v.x)
  else (v.x, v.y)

/-- Start-corner index (0–3) of a loop from its first point against the
loop's own bounding box (lines 616–649; same rule for uv and vertex
loops). -/
def loop_start_index (p0 : ℚ × ℚ) (min_x max_x max_y : ℚ) : ℕ :=
  if p0.2 < max_y then
    if p0.1 < max_x then 0 else 1
  else
    if p0.1 > min_x then 2 else 3

/-- The counterclockwise uv-rotation lookup table (verbatim constant). -/
def COUNTERCLOCKWISE_UV_ROTATION_LOOKUP : List (List ℚ) :=
  [[0, 270, 180, 90], [90, 0, 270, 180], [180, 90, 0, 270], [270, 180, 90, 0]]

/-- The clockwise uv-rotation lookup table (verbatim constant). -/
def CLOCKWISE_UV_ROTATION_LOOKUP : List (List ℚ) :=
  [[90, 0, 270, 180], [0, 270, 180, 90], [270, 180, 90, 0], [180, 90, 0, 270]]

/-- `TABLE[r][c]` (indices are always in 0..3 where used). -/
def table_lookup (tbl : List (List ℚ)) (r c : ℕ) : ℚ :=
  (tbl.getD r []).getD c 0

/-- Lines 581–683: bounding boxes, winding of the uv and projected
vertex loops, start corners, and the four winding cases yielding the
output rectangle `face_uvs` (first component) and the lookup-table
rotation `face_uv_rotation` (second component).  `pverts` is the
projected vertex loop.  (The source also computes `vert_min_y`; it is
never read.) -/
def face_uv_data (uv0 uv1 uv2 uv3 : ℚ × ℚ) (pverts : List (ℚ × ℚ)) :
    (ℚ × ℚ × ℚ × ℚ) × ℚ :=
  let uv_min_x := min uv0.1 uv2.1
  let uv_max_x := max uv0.1 uv2.1
  let uv_min_y := min uv0.2 uv2.2
  let uv_max_y := max uv0.2 uv2.2
  let uv_clockwise := loop_is_clockwise [uv0, uv1, uv2, uv3]
  let v0 := pverts.getD 0 (0, 0)
  let v2 := pverts.getD 2 (0, 0)
  let vert_min_x := min v0.1 v2.1
  let vert_max_x := max v0.1 v2.1
  let vert_max_y := max v0.2 v2.2
  let vert_clockwise := loop_is_clockwise pverts
  let u := loop_start_index uv0 uv_min_x uv_max_x uv_max_y
  let w := loop_start_index v0 vert_min_x vert_max_x vert_max_y
  if uv_clockwise = false ∧ vert_clockwise = false then
    ((uv_min_x, uv_max_y, uv_max_x, uv_min_y),
     table_lookup COUNTERCLOCKWISE_UV_ROTATION_LOOKUP u w)
  else if uv_clockwise = true ∧ vert_clockwise = false then
    ((uv_max_x, uv_max_y, uv_min_x, uv_min_y),
     table_lookup CLOCKWISE_UV_ROTATION_LOOKUP u w)
  else if uv_clockwise = false ∧ vert_clockwise = true then
    ((uv_max_x, uv_max_y, uv_min_x, uv_min_y),
     table_lookup CLOCKWISE_UV_ROTATION_LOOKUP u w)
  else
    ((uv_min_x, uv_max_y, uv_max_x, uv_min_y),
     table_lookup COUNTERCLOCKWISE_UV_ROTATION_LOOKUP u w)

/-- Lines 685–689: scale to pixel units with the vertical flip,
producing `[xmin, ymin, xmax, ymax]`. -/
def face_uv_pixels (face_uvs : ℚ × ℚ × ℚ × ℚ) (tex_width tex_height : ℚ) : List ℚ :=
  [face_uvs.1 * tex_width, (1 - face_uvs.2.1) * tex_height,
   face_uvs.2.2.1 * tex_width, (1 - face_uvs.2.2.2) * tex_height]

/-- Lines 691–692: the optional `rotation` entry — present exactly when
the lookup rotation is neither 0 nor 360, negative values shifted by
360. -/
def uv_rotation_entry (r : ℚ) : Option ℚ :=
  if r ≠ 0 ∧ r ≠ 360 then some (if r ≥ 0 then r else 360 + r) else none

/-- A value of the `faces` dict: either the face dict
`{texture, uv, rotation?, autoUv}` or a raw color tuple (the source
replaces the dict wholesale with the color tuple, translated to a
reference into the color atlas only during final processing). -/
inductive FaceVal where
  | face (texture : String) (uv : List ℚ) (rotation : Option ℚ) (autoUv : Bool)
  | color (c : ℚ × ℚ × ℚ × ℚ)
  deriving DecidableEq, Repr

/-- The placeholder every direction is initialised with (lines 526–533). -/
def placeholder_face : FaceVal := FaceVal.face "#0" [0, 0, 4, 4] none false

/-- The initial `faces` dict, in source insertion order. -/
def initial_faces : List (String × FaceVal) :=
  [("north", placeholder_face), ("east", placeholder_face), ("south", placeholder_face),
   ("west", placeholder_face), ("up", placeholder_face), ("down", placeholder_face)]

/-- `faces[d] = v` on the association-list model of the dict (every
direction written is one of the six existing keys, so assignment never
adds a key). -/
def set_face (faces : List (String × FaceVal)) (d : String) (v : FaceVal) :
    List (String × FaceVal) :=
  faces.map fun kv => if kv.1 = d then (kv.1, v) else kv

/-- `faces[d]` (the default is unreachable at use sites: `d` is always
one of the six keys). -/
def lookup_face (faces : List (String × FaceVal)) (d : String) : FaceVal :=
  match faces.find? (fun kv => kv.1 == d) with
  | some kv => kv.2
  | none => placeholder_face

/-- The texture branch of the face loop (lines 566–692): always writes
`faces[d]["texture"]`, and under `export_uvs` also the uv rectangle and
the optional rotation.  A current value that is a color tuple is left
unchanged (the source would raise a `TypeError` there; it is
unreachable for well-formed cuboids whose polygons claim six distinct
directions). -/
def set_texture_face (cur : FaceVal) (t : TextureInfo) (export_uvs : Bool)
    (uv0 uv1 uv2 uv3 : ℚ × ℚ) (pverts : List (ℚ × ℚ)) : FaceVal :=
  match cur with
  | FaceVal.face _ uv rot auto =>
    if export_uvs then
      let data := face_uv_data uv0 uv1 uv2 uv3 pverts
      FaceVal.face t.path (face_uv_pixels data.1 (t.width : ℚ) (t.height : ℚ))
        (match uv_rotation_entry data.2 with
         | some r => some r
         | none => rot) auto
    else
      FaceVal.face t.path uv rot auto
  | FaceVal.color c => FaceVal.color c

/-! ### Scene model and the element tree builder (`generate_element`)

Embedding restriction, stated once: the embedded scenes carry no
armature and have object rotations with no 90°-step component, so the
source's `parent_rotation_90deg`/`mat_rotate_90deg` are `None`, its
`get_reduced_rotation` returns the rotation unchanged with no step
matrix, and its world-matrix decomposition returns the object's local
translation (`obj.location`).  An object's `vs_rotation` field holds
the value of the source's `rotation` variable at line 492 — the
object's rotation already converted to VintageStory degrees, whose
continuous conversion pipeline is modelled separately over ℝ below.
`EMPTY` marker children (attach points), collection bookkeeping and the
`model_colors`/`model_textures` registries are outside every claim and
are not modelled. -/

/-- One mesh polygon: its normal, material slot index, the vertex
indices of its loop, and the active-layer uv coordinates of its loop. -/
structure Polygon where
  normal : Vec3
  material_index : ℕ
  verts : List ℕ
  uvs : List (ℚ × ℚ)
  deriving DecidableEq, Repr

/-- A scene object: name, local translation, converted residual
rotation (see the section comment), local mesh data, material slots and
children. -/
structure SceneObj where
  name : String
  location : Vec3
  vs_rotation : Vec3
  vertices : List Vec3
  polygons : List Polygon
  material_slots : List (Option Material)
  children : List SceneObj

/-- The output element (the fields every claim touches; `group` and
`attachmentpoints` carry no claim). -/
structure Element where
  name : String
  v_from : Vec3
  v_to : Vec3
  rotationOrigin : Vec3
  rotationX : Option ℚ
  rotationY : Option ℚ
  rotationZ : Option ℚ
  faces : List (String × FaceVal)
  children : List Element

/-- Componentwise minimum, the reduction step of `np.amin(..., axis=1)`. -/
def vec_min (a b : Vec3) : Vec3 := ⟨min a.x b.x, min a.y b.y, min a.z b.z⟩

/-- Componentwise maximum. -/
def vec_max (a b : Vec3) : Vec3 := ⟨max a.x b.x, max a.y b.y, max a.z b.z⟩

/-- `np.amin(v_local, axis=1)`; only applied to the 8-vertex list, so
the empty case is unreachable. -/
def vmin : List Vec3 → Vec3
  | [] => ⟨0, 0, 0⟩
  | v :: rest => rest.foldl vec_min v

/-- `np.amax(v_local, axis=1)`. -/
def vmax : List Vec3 → Vec3
  | [] => ⟨0, 0, 0⟩
  | v :: rest => rest.foldl vec_max v

/-- One iteration of the face loop (lines 537–692) for one polygon:
classify the direction, resolve the face color/texture, and update the
`faces` dict. -/
def process_polygon (material_slots : List (Option Material)) (vertices : List Vec3)
    (export_uvs export_generated_texture : Bool)
    (faces : List (String × FaceVal)) (poly : Polygon) : List (String × FaceVal) :=
  let d := face_direction poly.normal
  match get_object_color material_slots poly.material_index (0, 0, 0, 1) with
  | ColorOrTexture.color c =>
    if export_generated_texture then set_face faces d (FaceVal.color c) else faces
  | ColorOrTexture.texture t =>
    let pverts := poly.verts.map
      (fun vi => project_vert poly.normal (vertices.getD vi ⟨0, 0, 0⟩))
    set_face faces d
      (set_texture_face (lookup_face faces d) t export_uvs
        (poly.uvs.getD 0 (0, 0)) (poly.uvs.getD 1 (0, 0))
        (poly.uvs.getD 2 (0, 0)) (poly.uvs.getD 3 (0, 0)) pverts)

/-- The face loop: `for i, face in enumerate(mesh.polygons)` with the
`if i > 5: break` cutoff — only the first six polygons are processed. -/
def build_faces (material_slots : List (Option Material)) (vertices : List Vec3)
    (polygons : List Polygon) (export_uvs export_generated_texture : Bool) :
    List (String × FaceVal) :=
  (polygons.take 6).foldl
    (process_polygon material_slots vertices export_uvs export_generated_texture)
    initial_faces

mutual

/-- Model of `generate_element` under the section restriction: reject
non-8-vertex meshes before anything else (lines 396–399), compute the
bounding corners, convert to VS axes, accumulate
`rotation_origin = origin - parent_cube_origin + parent_rotation_origin`
(line 495), emit the optional per-axis rotations (zero omitted,
lines 789–794), the faces and the recursively built children (passing
`cube_origin = v_from` and `rotation_origin` down, lines 730–732). -/
def generate_element (export_uvs export_generated_texture : Bool) :
    SceneObj → Vec3 → Vec3 → Option Element
  | ⟨name, location, vs_rotation, vertices, polygons, material_slots, children⟩,
      parent_cube_origin, parent_rotation_origin =>
    if vertices.length = 8 then
      let v_min := to_y_up (vmin vertices)
      let v_max := to_y_up (vmax vertices)
      let origin := to_y_up location
      let rotation_origin := origin - parent_cube_origin + parent_rotation_origin
      let v_from := v_min + rotation_origin
      let v_to := v_max + rotation_origin
      let faces := build_faces material_slots vertices polygons
        export_uvs export_generated_texture
      some ⟨name, v_from, v_to, rotation_origin,
        if vs_rotation.x ≠ 0 then some vs_rotation.x else none,
        if vs_rotation.y ≠ 0 then some vs_rotation.y else none,
        if vs_rotation.z ≠ 0 then some vs_rotation.z else none,
        faces,
        generate_children export_uvs export_generated_texture children v_from rotation_origin⟩
    else none

/-- The `for child in obj.children` loop: children whose builder call
returns `None` contribute nothing. -/
def generate_children (export_uvs export_generated_texture : Bool) :
    List SceneObj → Vec3 → Vec3 → List Element
  | [], _, _ => []
  | c :: rest, pco, pro =>
    match generate_element export_uvs export_generated_texture c pco pro with
    | some e => e :: generate_children export_uvs export_generated_texture rest pco pro
    | none => generate_children export_uvs export_generated_texture rest pco pro

end

/-! ### Concrete scenes used by counterexamples and witnesses -/

/-- The eight corners of the axis-aligned unit cube with minimum corner
`(o, o, o)`. -/
def cube8 (o : ℚ) : List Vec3 :=
  [⟨o, o, o⟩, ⟨o + 1, o, o⟩, ⟨o, o + 1, o⟩, ⟨o, o, o + 1⟩,
   ⟨o + 1, o + 1, o⟩, ⟨o + 1, o, o + 1⟩, ⟨o, o + 1, o + 1⟩, ⟨o + 1, o + 1, o + 1⟩]

/-- A child cube translated by (1, 0, 0), no rotation, no materials. -/
def child2 : SceneObj := ⟨"child", ⟨1, 0, 0⟩, ⟨0, 0, 0⟩, cube8 0, [], [], []⟩

/-- A parent at the origin whose cuboid corners run from (1,1,1) to
(2,2,2) — its exported `from` is (1,1,1), nonzero — with `child2` as
its only child. -/
def parent2 : SceneObj := ⟨"parent", ⟨0, 0, 0⟩, ⟨0, 0, 0⟩, cube8 1, [], [], [child2]⟩

/-- The element exported for `child2` (relative to `parent2`). -/
def elemC : Element :=
  ⟨"child", ⟨-1, -1, 0⟩, ⟨0, 0, 1⟩, ⟨-1, -1, 0⟩, none, none, none, initial_faces, []⟩

/-- The element exported for `parent2` at the root call. -/
def elemP : Element :=
  ⟨"parent", ⟨1, 1, 1⟩, ⟨2, 2, 2⟩, ⟨0, 0, 0⟩, none, none, none, initial_faces, [elemC]⟩

theorem generate_parent2_eq :
    generate_element true true parent2 ⟨0, 0, 0⟩ ⟨0, 0, 0⟩ = some elemP := by
  simp only [generate_element, parent2, child2, generate_children]
  norm_num [vmin, vmax, cube8, vec_min, vec_max, to_y_up, Element.mk.injEq, elemP, elemC,
    build_faces, Vec3.add_def, Vec3.sub_def, Vec3.mk.injEq]

/-- Projections of a successfully built element: every output field in
terms of the input object and the parent frame. -/
theorem element_fields_eq (eu eg : Bool) (obj : SceneObj) (pco pro : Vec3) (e : Element)
    (h : generate_element eu eg obj pco pro = some e) :
    e.name = obj.name ∧
    e.rotationOrigin = to_y_up obj.location - pco + pro ∧
    e.v_from = to_y_up (vmin obj.vertices) + e.rotationOrigin ∧
    e.v_to = to_y_up (vmax obj.vertices) + e.rotationOrigin ∧
    e.rotationX = (if obj.vs_rotation.x ≠ 0 then some obj.vs_rotation.x else none) ∧
    e.rotationY = (if obj.vs_rotation.y ≠ 0 then some obj.vs_rotation.y else none) ∧
    e.rotationZ = (if obj.vs_rotation.z ≠ 0 then some obj.vs_rotation.z else none) ∧
    e.faces = build_faces obj.material_slots obj.vertices obj.polygons eu eg ∧
    e.children = generate_children eu eg obj.children e.v_from e.rotationOrigin := by
  obtain ⟨n, loc, vr, verts, polys, slots, ch⟩ := obj
  simp only [generate_element] at h
  split at h
  · rw [Option.some.injEq] at h
    subst h
    exact ⟨rfl, rfl, rfl, rfl, rfl, rfl, rfl, rfl, rfl⟩
  · exact absurd h (by simp)

/-- An 8-vertex object always yields an element. -/
theorem generate_element_total (eu eg : Bool) (obj : SceneObj) (pco pro : Vec3)
    (h : obj.vertices.length = 8) :
    ∃ e, generate_element eu eg obj pco pro = some e := by
  obtain ⟨n, loc, vr, verts, polys, slots, ch⟩ := obj
  simp only at h
  simp only [generate_element]
  rw [if_pos h]
  exact ⟨_, rfl⟩

/-- One step of the child loop when the child exports. -/
theorem generate_children_cons_some {eu eg : Bool} {c : SceneObj} {rest : List SceneObj}
    {pco pro : Vec3} {e : Element} (h : generate_element eu eg c pco pro = some e) :
    generate_children eu eg (c :: rest) pco pro =
      e :: generate_children eu eg rest pco pro := by
  simp only [generate_children, h]

/-- C1 (amended): the exported rotation origin obeys
`rotation_origin = this_origin - parent_cube_origin + parent_rotation_origin`
(line 495) — the parent terms enter with the opposite signs to the ones
the claim states; consequently, in a 2-level hierarchy with the parent
untransformed at the origin and the child translated with no rotation,
the child's `rotationOrigin` is the axis-permuted child translation
MINUS the parent's cuboid `from` corner. -/
theorem C1_rotation_origin_amended :
    (∀ (eu eg : Bool) (obj : SceneObj) (pco pro : Vec3) (e : Element),
      generate_element eu eg obj pco pro = some e →
      e.rotationOrigin = to_y_up obj.location - pco + pro) ∧
    (∀ (eu eg : Bool) (parent child : SceneObj) (pe : Element),
      parent.location = ⟨0, 0, 0⟩ →
      parent.children = [child] →
      child.vertices.length = 8 →
      generate_element eu eg parent ⟨0, 0, 0⟩ ⟨0, 0, 0⟩ = some pe →
      ∃ ce, pe.children = [ce] ∧
        ce.rotationOrigin = to_y_up child.location - pe.v_from) := by
  constructor
  · intro eu eg obj pco pro e h
    exact (element_fields_eq eu eg obj pco pro e h).2.1
  · intro eu eg parent child pe hloc hch hcv hgen
    obtain ⟨-, hro, -, -, -, -, -, -, hchld⟩ := element_fields_eq _ _ _ _ _ _ hgen
    rw [hch] at hchld
    rw [hloc] at hro
    have hro0 : pe.rotationOrigin = ⟨0, 0, 0⟩ := by
      rw [hro]
      norm_num [to_y_up, Vec3.add_def, Vec3.sub_def]
    obtain ⟨ce, hce⟩ := generate_element_total eu eg child pe.v_from pe.rotationOrigin hcv
    rw [generate_children_cons_some hce] at hchld
    have hnil : generate_children eu eg [] pe.v_from pe.rotationOrigin = [] := by
      simp only [generate_children]
    rw [hnil] at hchld
    refine ⟨ce, hchld, ?_⟩
    have := (element_fields_eq _ _ _ _ _ _ hce).2.1
    rw [this, hro0]
    obtain ⟨cx, cy, cz⟩ := to_y_up child.location
    obtain ⟨fx, fy, fz⟩ := pe.v_from
    simp only [Vec3.sub_def, Vec3.add_def]
    norm_num

/-- C1 counterexample: for `parent2`/`child2` the code produces child
`rotationOrigin = (-1, -1, 0)`, whereas the claim's formula
`parent_cube_origin - parent_rotation_origin + this_origin`
(equivalently, the claim's 2-level prediction "parent's `from` plus the
axis-permuted child translation") predicts
`(1,1,1) - (0,0,0) + toTargetAxes (1,0,0) = (1,1,2)`. -/
theorem C1_counterexample :
    (generate_element true true parent2 ⟨0, 0, 0⟩ ⟨0, 0, 0⟩).map
        (fun e => (e.v_from, e.rotationOrigin, e.children.map Element.rotationOrigin)) =
      some (⟨1, 1, 1⟩, ⟨0, 0, 0⟩, [⟨-1, -1, 0⟩]) ∧
    (⟨-1, -1, 0⟩ : Vec3) ≠ ⟨1, 1, 1⟩ - ⟨0, 0, 0⟩ + to_y_up ⟨1, 0, 0⟩ := by
  constructor
  · rw [generate_parent2_eq]
    norm_num [elemP, elemC]
  · norm_num [to_y_up, Vec3.sub_def, Vec3.add_def, Vec3.mk.injEq]

/-- Witness for C1 at the concrete 2-level scene. -/
theorem C1_witness :
    elemP.rotationOrigin = to_y_up parent2.location - ⟨0, 0, 0⟩ + ⟨0, 0, 0⟩ ∧
    elemC.rotationOrigin = to_y_up child2.location - elemP.v_from := by
  constructor
  · exact C1_rotation_origin_amended.1 true true parent2 ⟨0, 0, 0⟩ ⟨0, 0, 0⟩ elemP
      generate_parent2_eq
  · obtain ⟨ce, hce, hro⟩ := C1_rotation_origin_amended.2 true true parent2 child2 elemP
      rfl rfl (by norm_num [child2, cube8]) generate_parent2_eq
    have h2 : elemP.children = [elemC] := rfl
    rw [h2] at hce
    obtain ⟨hhead, -⟩ := List.cons_eq_cons.mp hce
    rw [hhead]
    exact hro

/-- C3: an object whose mesh has other than 8 vertices produces no
element — the builder returns `None` before visiting any child, so the
whole subtree is excluded; being a total function, no error is raised. -/
theorem C3_non_cuboid_excluded (eu eg : Bool) (obj : SceneObj) (pco pro : Vec3)
    (h : obj.vertices.length ≠ 8) :
    generate_element eu eg obj pco pro = none := by
  obtain ⟨n, loc, vr, verts, polys, slots, ch⟩ := obj
  simp only at h
  simp only [generate_element]
  rw [if_neg h]

/-- Witness for C3: a mesh with no vertices is skipped. -/
theorem C3_witness :
    (SceneObj.mk "empty" ⟨0, 0, 0⟩ ⟨0, 0, 0⟩ [] [] [] []).vertices.length ≠ 8 ∧
    generate_element true true ⟨"empty", ⟨0, 0, 0⟩, ⟨0, 0, 0⟩, [], [], [], []⟩
      ⟨0, 0, 0⟩ ⟨0, 0, 0⟩ = none :=
  ⟨by decide, C3_non_cuboid_excluded true true _ _ _ (by decide)⟩

/-- Every entry of either uv-rotation lookup table (or the
out-of-range default 0) is one of 0, 90, 180, 270. -/
theorem table_lookup_rot (tbl : List (List ℚ))
    (htbl : tbl = COUNTERCLOCKWISE_UV_ROTATION_LOOKUP ∨ tbl = CLOCKWISE_UV_ROTATION_LOOKUP)
    (r c : ℕ) :
    table_lookup tbl r c = 0 ∨ table_lookup tbl r c = 90 ∨
      table_lookup tbl r c = 180 ∨ table_lookup tbl r c = 270 := by
  have hall : ∀ row ∈ tbl, ∀ v ∈ row, v = 0 ∨ v = 90 ∨ v = 180 ∨ v = 270 := by
    rcases htbl with h | h <;> subst h <;> decide
  unfold table_lookup
  rcases Nat.lt_or_ge r tbl.length with hr | hr
  · rw [List.getD_eq_getElem tbl [] hr]
    rcases Nat.lt_or_ge c tbl[r].length with hc | hc
    · rw [List.getD_eq_getElem _ 0 hc]
      exact hall _ (List.getElem_mem hr) _ (List.getElem_mem hc)
    · rw [List.getD_eq_default _ 0 hc]
      exact Or.inl rfl
  · rw [List.getD_eq_default tbl [] hr]
    exact Or.inl rfl

/-- The `face_uv_rotation` computed by the winding cases is always a
lookup-table entry: one of 0, 90, 180, 270. -/
theorem face_uv_data_rot_cases (uv0 uv1 uv2 uv3 : ℚ × ℚ) (pverts : List (ℚ × ℚ)) :
    (face_uv_data uv0 uv1 uv2 uv3 pverts).2 = 0 ∨
      (face_uv_data uv0 uv1 uv2 uv3 pverts).2 = 90 ∨
      (face_uv_data uv0 uv1 uv2 uv3 pverts).2 = 180 ∨
      (face_uv_data uv0 uv1 uv2 uv3 pverts).2 = 270 := by
  unfold face_uv_data
  dsimp only
  split_ifs
  · exact table_lookup_rot _ (Or.inl rfl) _ _
  · exact table_lookup_rot _ (Or.inr rfl) _ _
  · exact table_lookup_rot _ (Or.inr rfl) _ _
  · exact table_lookup_rot _ (Or.inl rfl) _ _

/-- C4: zero rotations are omitted.  For every exported element, the
`rotationX`/`rotationY`/`rotationZ` keys are present exactly when the
corresponding converted rotation component is nonzero; and in UV
reconstruction the `rotation` entry is present exactly when the
lookup-table rotation is neither 0 nor 360, its value always one of
90, 180, 270. -/
theorem C4_zero_rotation_omitted :
    (∀ (eu eg : Bool) (obj : SceneObj) (pco pro : Vec3) (e : Element),
      generate_element eu eg obj pco pro = some e →
      (e.rotationX.isSome ↔ obj.vs_rotation.x ≠ 0) ∧
      (e.rotationY.isSome ↔ obj.vs_rotation.y ≠ 0) ∧
      (e.rotationZ.isSome ↔ obj.vs_rotation.z ≠ 0)) ∧
    (∀ (uv0 uv1 uv2 uv3 : ℚ × ℚ) (pverts : List (ℚ × ℚ)),
      ((uv_rotation_entry (face_uv_data uv0 uv1 uv2 uv3 pverts).2).isSome ↔
        ((face_uv_data uv0 uv1 uv2 uv3 pverts).2 ≠ 0 ∧
         (face_uv_data uv0 uv1 uv2 uv3 pverts).2 ≠ 360)) ∧
      (∀ q, uv_rotation_entry (face_uv_data uv0 uv1 uv2 uv3 pverts).2 = some q →
        q = 90 ∨ q = 180 ∨ q = 270)) := by
  constructor
  · intro eu eg obj pco pro e h
    obtain ⟨-, -, -, -, hx, hy, hz, -, -⟩ := element_fields_eq _ _ _ _ _ _ h
    refine ⟨?_, ?_, ?_⟩
    · rw [hx]; split <;> simp_all
    · rw [hy]; split <;> simp_all
    · rw [hz]; split <;> simp_all
  · intro uv0 uv1 uv2 uv3 pverts
    constructor
    · unfold uv_rotation_entry
      split <;> simp_all
    · intro q hq
      rcases face_uv_data_rot_cases uv0 uv1 uv2 uv3 pverts with h | h | h | h <;> rw [h] at hq
      · rw [show uv_rotation_entry 0 = none from by norm_num [uv_rotation_entry]] at hq
        exact absurd hq (by simp)
      · rw [show uv_rotation_entry 90 = some 90 from by norm_num [uv_rotation_entry]] at hq
        rw [Option.some.injEq] at hq
        exact Or.inl hq.symm
      · rw [show uv_rotation_entry 180 = some 180 from by norm_num [uv_rotation_entry]] at hq
        rw [Option.some.injEq] at hq
        exact Or.inr (Or.inl hq.symm)
      · rw [show uv_rotation_entry 270 = some 270 from by norm_num [uv_rotation_entry]] at hq
        rw [Option.some.injEq] at hq
        exact Or.inr (Or.inr hq.symm)

/-- Witness for C4 at the concrete scene `parent2` (zero rotation, so
all three keys are absent) and a concrete UV/vertex loop. -/
theorem C4_witness :
    (elemP.rotationX.isSome ↔ parent2.vs_rotation.x ≠ 0) ∧
    ((uv_rotation_entry
        (face_uv_data (0, 0) (1, 0) (1, 1) (0, 1) [(0, 0), (1, 0), (1, 1), (0, 1)]).2).isSome ↔
      ((face_uv_data (0, 0) (1, 0) (1, 1) (0, 1) [(0, 0), (1, 0), (1, 1), (0, 1)]).2 ≠ 0 ∧
       (face_uv_data (0, 0) (1, 0) (1, 1) (0, 1) [(0, 0), (1, 0), (1, 1), (0, 1)]).2 ≠ 360)) :=
  ⟨(C4_zero_rotation_omitted.1 true true parent2 ⟨0, 0, 0⟩ ⟨0, 0, 0⟩ elemP
      generate_parent2_eq).1,
   (C4_zero_rotation_omitted.2 (0, 0) (1, 0) (1, 1) (0, 1) [(0, 0), (1, 0), (1, 1), (0, 1)]).1⟩

theorem set_face_head_key (kv : String × FaceVal) (d : String) (v : FaceVal) :
    (if kv.1 = d then (kv.1, v) else kv).1 = kv.1 := by
  split <;> rfl

/-- `faces[d] = v` does not change the key list. -/
theorem set_face_keys (fs : List (String × FaceVal)) (d : String) (v : FaceVal) :
    (set_face fs d v).map Prod.fst = fs.map Prod.fst := by
  unfold set_face
  induction fs with
  | nil => rfl
  | cons kv rest ih =>
    simp only [List.map_cons]
    rw [ih, set_face_head_key]

/-- One face-loop iteration does not change the key list. -/
theorem process_polygon_keys (slots : List (Option Material)) (verts : List Vec3)
    (eu eg : Bool) (fs : List (String × FaceVal)) (poly : Polygon) :
    (process_polygon slots verts eu eg fs poly).map Prod.fst = fs.map Prod.fst := by
  unfold process_polygon
  cases get_object_color slots poly.material_index (0, 0, 0, 1) with
  | color c =>
    dsimp only
    split
    · exact set_face_keys fs _ _
    · rfl
  | texture t => exact set_face_keys fs _ _

theorem foldl_process_keys (slots : List (Option Material)) (verts : List Vec3)
    (eu eg : Bool) (polys : List Polygon) :
    ∀ fs : List (String × FaceVal),
      ((polys.foldl (process_polygon slots verts eu eg) fs).map Prod.fst) = fs.map Prod.fst := by
  induction polys with
  | nil => intro fs; rfl
  | cons p rest ih =>
    intro fs
    rw [List.foldl_cons, ih, process_polygon_keys]

/-- `faces[d']` is unchanged by an assignment at a different key. -/
theorem lookup_face_set_face_ne {fs : List (String × FaceVal)} {d v d'} (hne : d' ≠ d) :
    lookup_face (set_face fs d v) d' = lookup_face fs d' := by
  unfold lookup_face set_face
  induction fs with
  | nil => rfl
  | cons kv rest ih =>
    simp only [List.map_cons]
    by_cases h : (kv.1 == d') = true
    · have hk : kv.1 = d' := by simpa using h
      have hna : kv.1 ≠ d := fun hh => hne (by rw [← hk, hh])
      rw [if_neg hna]
      simp only [List.find?]
      rw [h]
    · have h' : (kv.1 == d') = false := by simpa using h
      simp only [List.find?, set_face_head_key]
      rw [h']
      exact ih

/-- A direction not claimed by any processed polygon keeps its `faces`
entry through the whole face loop. -/
theorem lookup_face_foldl (slots : List (Option Material)) (verts : List Vec3)
    (eu eg : Bool) (polys : List Polygon) :
    ∀ (fs : List (String × FaceVal)) (d : String),
      d ∉ polys.map (fun p => face_direction p.normal) →
      lookup_face (polys.foldl (process_polygon slots verts eu eg) fs) d = lookup_face fs d := by
  induction polys with
  | nil => intro fs d _; rfl
  | cons p rest ih =>
    intro fs d hd
    simp only [List.map_cons, List.mem_cons, not_or] at hd
    obtain ⟨hd1, hd2⟩ := hd
    rw [List.foldl_cons, ih _ _ hd2]
    unfold process_polygon
    cases get_object_color slots p.material_index (0, 0, 0, 1) with
    | color c =>
      dsimp only
      split
      · exact lookup_face_set_face_ne hd1
      · rfl
    | texture t => exact lookup_face_set_face_ne hd1

/-- Every direction starts out mapped to the placeholder. -/
theorem lookup_face_initial (d : String) : lookup_face initial_faces d = placeholder_face := by
  unfold lookup_face
  cases hf : List.find? (fun kv => kv.1 == d) initial_faces with
  | none => rfl
  | some kv =>
    have hmem := List.mem_of_find?_eq_some hf
    simp only [initial_faces, List.mem_cons, List.not_mem_nil, or_false] at hmem
    rcases hmem with h | h | h | h | h | h <;> rw [h]

/-- C9 (amended): every exported element's `faces` object has exactly
the six direction keys, in source order; a direction not claimed by one
of the first six polygons retains the full placeholder
`{texture "#0", uv [0,0,4,4]}`; a textured face whose UVs are not
exported retains the placeholder uv (and rotation) but has its texture
reference overwritten with the texture path; and a solid-color face is
left untouched when generated-texture export is disabled. -/
theorem C9_faces_exactly_six :
    (∀ (eu eg : Bool) (obj : SceneObj) (pco pro : Vec3) (e : Element),
      generate_element eu eg obj pco pro = some e →
      e.faces.map Prod.fst = ["north", "east", "south", "west", "up", "down"] ∧
      (∀ d, d ∉ (obj.polygons.take 6).map (fun p => face_direction p.normal) →
        lookup_face e.faces d = placeholder_face)) ∧
    (∀ (tx : String) (uv : List ℚ) (rot : Option ℚ) (auto : Bool) (t : TextureInfo)
        (uv0 uv1 uv2 uv3 : ℚ × ℚ) (pverts : List (ℚ × ℚ)),
      set_texture_face (FaceVal.face tx uv rot auto) t false uv0 uv1 uv2 uv3 pverts =
        FaceVal.face t.path uv rot auto) ∧
    (∀ (slots : List (Option Material)) (verts : List Vec3) (eu : Bool)
        (fs : List (String × FaceVal)) (poly : Polygon) (c : ℚ × ℚ × ℚ × ℚ),
      get_object_color slots poly.material_index (0, 0, 0, 1) = ColorOrTexture.color c →
      process_polygon slots verts eu false fs poly = fs) := by
  refine ⟨?_, fun tx uv rot auto t uv0 uv1 uv2 uv3 pverts => rfl, ?_⟩
  · intro eu eg obj pco pro e h
    obtain ⟨-, -, -, -, -, -, -, hfaces, -⟩ := element_fields_eq _ _ _ _ _ _ h
    rw [hfaces]
    unfold build_faces
    constructor
    · rw [foldl_process_keys]
      rfl
    · intro d hd
      rw [lookup_face_foldl _ _ _ _ _ _ _ hd]
      exact lookup_face_initial d
  · intro slots verts eu fs poly c hc
    unfold process_polygon
    rw [hc]
    rfl

/-- A material whose "Base Color" input links to an image texture with
path `//tex.png` at 16×16 pixels. -/
def texMat : Material :=
  ⟨some [⟨some ⟨[ShaderNodeSource.texImage (some ⟨"//tex.png", 16, 16⟩)], (1, 1, 1, 1)⟩, none⟩]⟩

/-- A cuboid whose single polygon faces north and carries `texMat`. -/
def obj1 : SceneObj :=
  ⟨"tex", ⟨0, 0, 0⟩, ⟨0, 0, 0⟩, cube8 0,
   [⟨⟨-1, 0, 0⟩, 0, [0, 1, 2, 3], [(0, 0), (1, 0), (1, 1), (0, 1)]⟩],
   [some texMat], []⟩

/-- C9 counterexample: with UV export disabled, the textured north face
does NOT retain the placeholder value — its texture reference becomes
the texture path (only the uv rectangle stays at the placeholder
`[0,0,4,4]`), refuting the claim that such faces retain
`texture "#0"`. -/
theorem C9_counterexample :
    (generate_element false true obj1 ⟨0, 0, 0⟩ ⟨0, 0, 0⟩).map
        (fun e => lookup_face e.faces "north") =
      some (FaceVal.face "//tex.png" [0, 0, 4, 4] none false) ∧
    ("//tex.png" : String) ≠ "#0" := by
  constructor
  · simp only [generate_element, obj1, generate_children]
    norm_num [build_faces, process_polygon, face_direction, argmax_idx, argmax_from,
      DIRECTIONS, DIRECTION_NORMALS, dot, get_object_color, texMat, get_material_color,
      nodes_color, find_texture_link, set_texture_face, set_face, lookup_face,
      initial_faces, placeholder_face, List.find?, cube8]
  · decide

/-- Witness for C9 at the concrete scene `parent2` (no polygons, so
every direction keeps its placeholder). -/
theorem C9_witness :
    elemP.faces.map Prod.fst = ["north", "east", "south", "west", "up", "down"] ∧
    lookup_face elemP.faces "north" = placeholder_face := by
  have h := C9_faces_exactly_six.1 true true parent2 ⟨0, 0, 0⟩ ⟨0, 0, 0⟩ elemP
    generate_parent2_eq
  exact ⟨h.1, h.2 "north" (by simp [parent2])⟩

/-- C7: `toTargetAxes` (the source's `to_y_up`) permutes the components
as target.x = source.y, target.y = source.z, target.z = source.x; it is
a bijection, and applying it three times is the identity (a 3-cycle). -/
theorem C7_to_y_up_permutation :
    (∀ v : Vec3, (to_y_up v).x = v.y ∧ (to_y_up v).y = v.z ∧ (to_y_up v).z = v.x) ∧
    Function.Bijective to_y_up ∧
    (∀ v : Vec3, to_y_up (to_y_up (to_y_up v)) = v) := by
  refine ⟨fun v => ⟨rfl, rfl, rfl⟩, ?_, fun v => rfl⟩
  have h : Function.LeftInverse (fun v => to_y_up (to_y_up v)) to_y_up := fun v => rfl
  exact Function.bijective_iff_has_inverse.2 ⟨_, h, fun v => rfl⟩

/-- C8: every output component of `clamp_rotation` lies in [-360, 360],
and `clamp_rotation` is idempotent. -/
theorem C8_clamp_rotation_idem :
    ∀ v : Vec3,
      (-360 ≤ (clamp_rotation v).x ∧ (clamp_rotation v).x ≤ 360 ∧
       -360 ≤ (clamp_rotation v).y ∧ (clamp_rotation v).y ≤ 360 ∧
       -360 ≤ (clamp_rotation v).z ∧ (clamp_rotation v).z ≤ 360) ∧
      clamp_rotation (clamp_rotation v) = clamp_rotation v := by
  intro v
  refine ⟨⟨(clamp_component_mem _).1, (clamp_component_mem _).2,
          (clamp_component_mem _).1, (clamp_component_mem _).2,
          (clamp_component_mem _).1, (clamp_component_mem _).2⟩, ?_⟩
  unfold clamp_rotation
  simp [clamp_component_idem]


/-- Euler XYZ rotation (radians), the model of a `mathutils.Euler`. -/
structure Euler3 where
  x : ℝ
  y : ℝ
  z : ℝ

/-- Model of `sign(x)`: 1 if `x >= 0` else -1. -/
noncomputable def sign (x : ℝ) : ℝ := if 0 ≤ x then 1 else -1

/-- The source's float-tolerance constant `eps = 1e-6`. -/
noncomputable def eps : ℝ := 1 / 1000000

theorem sign_cases (x : ℝ) : sign x = 1 ∨ sign x = -1 := by
  unfold sign
  split
  · exact Or.inl rfl
  · exact Or.inr rfl

theorem sign_mul_self {x s : ℝ} (h : sign x = s) : s * x = |x| := by
  unfold sign at h
  split at h
  · rename_i h0
    rw [← h, one_mul, abs_of_nonneg h0]
  · rename_i h0
    rw [← h, abs_of_neg (lt_of_not_ge h0)]
    ring

/-- One `while abs(residual) > thresh and sign(residual) == s` loop of
`get_reduced_rotation`: subtracts `s * pi/2` per iteration and counts
the steps (the count accumulates the float `s`, exactly as the source
does `xsteps += rot_x_sign`). -/
noncomputable def reduceAxis (thresh s : ℝ) (x : ℝ) : ℝ × ℝ :=
  if h : |x| > thresh ∧ sign x = s then
    ((reduceAxis thresh s (x - s * (Real.pi / 2))).1,
     (reduceAxis thresh s (x - s * (Real.pi / 2))).2 + s)
  else (x, 0)
termination_by (⌈s * x / (Real.pi / 2)⌉ + 1).toNat
decreasing_by
  simp_wf
  obtain ⟨habs, hsign⟩ := h
  have hsx : s * x = |x| := sign_mul_self hsign
  have hs : s = 1 ∨ s = -1 := hsign ▸ sign_cases x
  have hpi : (0 : ℝ) < Real.pi / 2 := by positivity
  have hs2 : s * (x - s * (Real.pi / 2)) = s * x - Real.pi / 2 := by
    rcases hs with h1 | h1 <;> rw [h1] <;> ring
  have hceil : ⌈s * (x - s * (Real.pi / 2)) / (Real.pi / 2)⌉ = ⌈s * x / (Real.pi / 2)⌉ - 1 := by
    rw [hs2, sub_div, div_self (ne_of_gt hpi), Int.ceil_sub_one]
  have hge : (0 : ℤ) ≤ ⌈s * x / (Real.pi / 2)⌉ :=
    Int.ceil_nonneg (div_nonneg (hsx ▸ abs_nonneg x) (le_of_lt hpi))
  rw [hceil]
  omega

/-- Model of `get_reduced_rotation`: the three while loops (thresholds
`pi/2 - eps` for x and y, `pi/4 - eps` for z), then the optional
90°-step Euler built from the step counts, `None` when no step was
extracted. -/
noncomputable def get_reduced_rotation (rotation : Euler3) : Euler3 × Option Euler3 :=
  let px := reduceAxis (Real.pi / 2 - eps) (sign rotation.x) rotation.x
  let py := reduceAxis (Real.pi / 2 - eps) (sign rotation.y) rotation.y
  let pz := reduceAxis (Real.pi / 4 - eps) (sign rotation.z) rotation.z
  if px.2 ≠ 0 ∨ py.2 ≠ 0 ∨ pz.2 ≠ 0 then
    (⟨px.1, py.1, pz.1⟩,
     some ⟨px.2 * (Real.pi / 2), py.2 * (Real.pi / 2), pz.2 * (Real.pi / 2)⟩)
  else (⟨px.1, py.1, pz.1⟩, none)

theorem reduceAxis_sum (thresh s x : ℝ) :
    (reduceAxis thresh s x).1 + (reduceAxis thresh s x).2 * (Real.pi / 2) = x := by
  refine reduceAxis.induct thresh s
    (fun y => (reduceAxis thresh s y).1 + (reduceAxis thresh s y).2 * (Real.pi / 2) = y)
    ?_ ?_ x
  · intro y hy ih
    rw [reduceAxis, dif_pos hy]
    dsimp only
    linear_combination ih
  · intro y hy
    rw [reduceAxis, dif_neg hy]
    ring

theorem reduceAxis_steps_int (thresh s x : ℝ) :
    ∃ m : ℤ, (reduceAxis thresh s x).2 = (m : ℝ) := by
  refine reduceAxis.induct thresh s
    (fun y => ∃ m : ℤ, (reduceAxis thresh s y).2 = (m : ℝ)) ?_ ?_ x
  · intro y hy ih
    obtain ⟨m, hm⟩ := ih
    rw [reduceAxis, dif_pos hy]
    dsimp only
    rcases hy.2 ▸ sign_cases y with hs | hs
    · exact ⟨m + 1, by rw [hm, hs]; push_cast; ring⟩
    · exact ⟨m - 1, by rw [hm, hs]; push_cast; ring⟩
  · intro y hy
    exact ⟨0, by rw [reduceAxis, dif_neg hy]; norm_num⟩

theorem reduceAxis_residual_bound (thresh s : ℝ) (ht0 : 0 ≤ thresh) (x : ℝ) :
    sign x = s → |(reduceAxis thresh s x).1| ≤ max thresh (Real.pi / 2 - thresh) := by
  refine reduceAxis.induct thresh s
    (fun y => sign y = s → |(reduceAxis thresh s y).1| ≤ max thresh (Real.pi / 2 - thresh))
    ?_ ?_ x
  · intro y h ih hsy
    rw [reduceAxis, dif_pos h]
    dsimp only
    by_cases hs2 : sign (y - s * (Real.pi / 2)) = s
    · exact ih hs2
    · rw [reduceAxis, dif_neg (fun hc => hs2 hc.2)]
      have hsxval : s * y = |y| := sign_mul_self h.2
      have hs : s = 1 ∨ s = -1 := h.2 ▸ sign_cases y
      have hssq : s * (y - s * (Real.pi / 2)) = s * y - Real.pi / 2 := by
        rcases hs with h1 | h1 <;> rw [h1] <;> ring
      have hlow : s * (y - s * (Real.pi / 2)) > thresh - Real.pi / 2 := by
        rw [hssq]
        have h1 := h.1
        rw [← hsxval] at h1
        linarith
      have hup : s * (y - s * (Real.pi / 2)) ≤ 0 := by
        rcases hs with h1 | h1
        · subst h1
          by_contra hcon
          push_neg at hcon
          have hcon2 : sign (y - 1 * (Real.pi / 2)) = 1 := by
            unfold sign
            rw [if_pos (by nlinarith)]
          exact hs2 hcon2
        · subst h1
          by_contra hcon
          push_neg at hcon
          have hcon2 : sign (y - (-1) * (Real.pi / 2)) = -1 := by
            unfold sign
            rw [if_neg (by nlinarith)]
          exact hs2 hcon2
      have habs2 : |y - s * (Real.pi / 2)| = -(s * (y - s * (Real.pi / 2))) := by
        rcases hs with h1 | h1 <;> subst h1
        · rw [abs_of_nonpos (by linarith)]
          ring
        · rw [abs_of_nonneg (by nlinarith)]
          ring
      rw [habs2]
      have hfin : -(s * (y - s * (Real.pi / 2))) < Real.pi / 2 - thresh := by linarith
      exact le_trans (le_of_lt hfin) (le_max_right _ _)
  · intro y h hsy
    rw [reduceAxis, dif_neg h]
    have hny : ¬ |y| > thresh := fun hc => h ⟨hc, hsy⟩
    exact le_trans (not_lt.mp hny) (le_max_left _ _)

theorem reduceAxis_zero (thresh s : ℝ) (ht : 0 < thresh) :
    reduceAxis thresh s 0 = (0, 0) := by
  rw [reduceAxis, dif_neg]
  intro hc
  rw [abs_zero] at hc
  exact absurd hc.1 (not_lt.mpr (le_of_lt ht))

/-- Rotation matrix about the source x axis. -/
noncomputable def Rx (t : ℝ) : Matrix (Fin 3) (Fin 3) ℝ :=
  !![1, 0, 0; 0, Real.cos t, -Real.sin t; 0, Real.sin t, Real.cos t]

/-- Rotation matrix about the source y axis. -/
noncomputable def Ry (t : ℝ) : Matrix (Fin 3) (Fin 3) ℝ :=
  !![Real.cos t, 0, Real.sin t; 0, 1, 0; -Real.sin t, 0, Real.cos t]

/-- Rotation matrix about the source z axis. -/
noncomputable def Rz (t : ℝ) : Matrix (Fin 3) (Fin 3) ℝ :=
  !![Real.cos t, -Real.sin t, 0; Real.sin t, Real.cos t, 0; 0, 0, 1]

/-- Orientation of an XYZ-order Euler rotation (Blender convention:
X applied first, so `R = Rz * Ry * Rx` on column vectors). -/
noncomputable def eulerToMatrix (e : Euler3) : Matrix (Fin 3) (Fin 3) ℝ :=
  Rz e.z * Ry e.y * Rx e.x

/-- The orientation contributed by the optional step rotation. -/
noncomputable def stepsMatrix : Option Euler3 → Matrix (Fin 3) (Fin 3) ℝ
  | none => 1
  | some e => eulerToMatrix e

theorem Rx_zero : Rx 0 = 1 := by
  ext i j
  fin_cases i <;> fin_cases j <;>
    simp [Rx, Matrix.one_apply, Matrix.vecHead, Matrix.vecTail]

theorem Ry_zero : Ry 0 = 1 := by
  ext i j
  fin_cases i <;> fin_cases j <;>
    simp [Ry, Matrix.one_apply, Matrix.vecHead, Matrix.vecTail]

theorem Rz_zero : Rz 0 = 1 := by
  ext i j
  fin_cases i <;> fin_cases j <;>
    simp [Rz, Matrix.one_apply, Matrix.vecHead, Matrix.vecTail]

theorem Rx_add (a b : ℝ) : Rx (a + b) = Rx a * Rx b := by
  ext i j
  fin_cases i <;> fin_cases j <;>
    simp [Rx, Matrix.mul_apply, Fin.sum_univ_three, Real.cos_add, Real.sin_add, Matrix.vecHead, Matrix.vecTail] <;> ring

theorem Ry_add (a b : ℝ) : Ry (a + b) = Ry a * Ry b := by
  ext i j
  fin_cases i <;> fin_cases j <;>
    simp [Ry, Matrix.mul_apply, Fin.sum_univ_three, Real.cos_add, Real.sin_add, Matrix.vecHead, Matrix.vecTail] <;> ring

theorem Rz_add (a b : ℝ) : Rz (a + b) = Rz a * Rz b := by
  ext i j
  fin_cases i <;> fin_cases j <;>
    simp [Rz, Matrix.mul_apply, Fin.sum_univ_three, Real.cos_add, Real.sin_add, Matrix.vecHead, Matrix.vecTail] <;> ring

theorem eulerToMatrix_x (a : ℝ) : eulerToMatrix ⟨a, 0, 0⟩ = Rx a := by
  unfold eulerToMatrix
  dsimp only
  rw [Rz_zero, Ry_zero, Matrix.one_mul, Matrix.one_mul]

theorem eulerToMatrix_y (b : ℝ) : eulerToMatrix ⟨0, b, 0⟩ = Ry b := by
  unfold eulerToMatrix
  dsimp only
  rw [Rz_zero, Rx_zero, Matrix.one_mul, Matrix.mul_one]

theorem eulerToMatrix_z (c : ℝ) : eulerToMatrix ⟨0, 0, c⟩ = Rz c := by
  unfold eulerToMatrix
  dsimp only
  rw [Ry_zero, Rx_zero, Matrix.mul_one, Matrix.mul_one]

theorem eps_pos : (0 : ℝ) < eps := by unfold eps; norm_num

theorem thresh_xy_pos : (0 : ℝ) < Real.pi / 2 - eps := by
  have h := Real.pi_gt_three
  unfold eps
  linarith

theorem thresh_z_pos : (0 : ℝ) < Real.pi / 4 - eps := by
  have h := Real.pi_gt_three
  unfold eps
  linarith

theorem eps_le_half_pi : eps ≤ Real.pi / 2 := by
  have h := Real.pi_gt_three
  unfold eps
  linarith

/-- The residual triple of `get_reduced_rotation` is the three per-axis
loop residuals. -/
theorem get_reduced_residual (r : Euler3) :
    (get_reduced_rotation r).1 =
      ⟨(reduceAxis (Real.pi / 2 - eps) (sign r.x) r.x).1,
       (reduceAxis (Real.pi / 2 - eps) (sign r.y) r.y).1,
       (reduceAxis (Real.pi / 4 - eps) (sign r.z) r.z).1⟩ := by
  unfold get_reduced_rotation
  dsimp only
  split_ifs <;> rfl

theorem get_reduced_x (a : ℝ) :
    get_reduced_rotation ⟨a, 0, 0⟩ =
      (⟨(reduceAxis (Real.pi / 2 - eps) (sign a) a).1, 0, 0⟩,
       if (reduceAxis (Real.pi / 2 - eps) (sign a) a).2 ≠ 0 then
         some ⟨(reduceAxis (Real.pi / 2 - eps) (sign a) a).2 * (Real.pi / 2), 0, 0⟩
       else none) := by
  unfold get_reduced_rotation
  dsimp only
  rw [reduceAxis_zero _ _ thresh_xy_pos, reduceAxis_zero _ _ thresh_z_pos]
  by_cases h : (reduceAxis (Real.pi / 2 - eps) (sign a) a).2 = 0 <;>
    simp [h]

theorem get_reduced_y (b : ℝ) :
    get_reduced_rotation ⟨0, b, 0⟩ =
      (⟨0, (reduceAxis (Real.pi / 2 - eps) (sign b) b).1, 0⟩,
       if (reduceAxis (Real.pi / 2 - eps) (sign b) b).2 ≠ 0 then
         some ⟨0, (reduceAxis (Real.pi / 2 - eps) (sign b) b).2 * (Real.pi / 2), 0⟩
       else none) := by
  unfold get_reduced_rotation
  dsimp only
  rw [reduceAxis_zero _ _ thresh_xy_pos, reduceAxis_zero _ _ thresh_z_pos]
  by_cases h : (reduceAxis (Real.pi / 2 - eps) (sign b) b).2 = 0 <;>
    simp [h]

theorem get_reduced_z (c : ℝ) :
    get_reduced_rotation ⟨0, 0, c⟩ =
      (⟨0, 0, (reduceAxis (Real.pi / 4 - eps) (sign c) c).1⟩,
       if (reduceAxis (Real.pi / 4 - eps) (sign c) c).2 ≠ 0 then
         some ⟨0, 0, (reduceAxis (Real.pi / 4 - eps) (sign c) c).2 * (Real.pi / 2)⟩
       else none) := by
  unfold get_reduced_rotation
  dsimp only
  rw [reduceAxis_zero _ _ thresh_xy_pos]
  by_cases h : (reduceAxis (Real.pi / 4 - eps) (sign c) c).2 = 0 <;>
    simp [h]

theorem single_axis_recompose_x (a : ℝ) :
    stepsMatrix (get_reduced_rotation ⟨a, 0, 0⟩).2 *
        eulerToMatrix (get_reduced_rotation ⟨a, 0, 0⟩).1 =
      eulerToMatrix ⟨a, 0, 0⟩ := by
  have hsum := reduceAxis_sum (Real.pi / 2 - eps) (sign a) a
  rw [get_reduced_x]
  dsimp only
  by_cases h : (reduceAxis (Real.pi / 2 - eps) (sign a) a).2 = 0
  · rw [if_neg (by simpa using h)]
    show (1 : Matrix (Fin 3) (Fin 3) ℝ) * _ = _
    rw [Matrix.one_mul, eulerToMatrix_x, eulerToMatrix_x]
    rw [h, zero_mul, add_zero] at hsum
    rw [hsum]
  · rw [if_pos h]
    show eulerToMatrix _ * _ = _
    rw [eulerToMatrix_x, eulerToMatrix_x, eulerToMatrix_x, ← Rx_add,
      show (reduceAxis (Real.pi / 2 - eps) (sign a) a).2 * (Real.pi / 2) +
          (reduceAxis (Real.pi / 2 - eps) (sign a) a).1 = a from by linarith]

theorem single_axis_recompose_y (b : ℝ) :
    stepsMatrix (get_reduced_rotation ⟨0, b, 0⟩).2 *
        eulerToMatrix (get_reduced_rotation ⟨0, b, 0⟩).1 =
      eulerToMatrix ⟨0, b, 0⟩ := by
  have hsum := reduceAxis_sum (Real.pi / 2 - eps) (sign b) b
  rw [get_reduced_y]
  dsimp only
  by_cases h : (reduceAxis (Real.pi / 2 - eps) (sign b) b).2 = 0
  · rw [if_neg (by simpa using h)]
    show (1 : Matrix (Fin 3) (Fin 3) ℝ) * _ = _
    rw [Matrix.one_mul, eulerToMatrix_y, eulerToMatrix_y]
    rw [h, zero_mul, add_zero] at hsum
    rw [hsum]
  · rw [if_pos h]
    show eulerToMatrix _ * _ = _
    rw [eulerToMatrix_y, eulerToMatrix_y, eulerToMatrix_y, ← Ry_add,
      show (reduceAxis (Real.pi / 2 - eps) (sign b) b).2 * (Real.pi / 2) +
          (reduceAxis (Real.pi / 2 - eps) (sign b) b).1 = b from by linarith]

theorem single_axis_recompose_z (c : ℝ) :
    stepsMatrix (get_reduced_rotation ⟨0, 0, c⟩).2 *
        eulerToMatrix (get_reduced_rotation ⟨0, 0, c⟩).1 =
      eulerToMatrix ⟨0, 0, c⟩ := by
  have hsum := reduceAxis_sum (Real.pi / 4 - eps) (sign c) c
  rw [get_reduced_z]
  dsimp only
  by_cases h : (reduceAxis (Real.pi / 4 - eps) (sign c) c).2 = 0
  · rw [if_neg (by simpa using h)]
    show (1 : Matrix (Fin 3) (Fin 3) ℝ) * _ = _
    rw [Matrix.one_mul, eulerToMatrix_z, eulerToMatrix_z]
    rw [h, zero_mul, add_zero] at hsum
    rw [hsum]
  · rw [if_pos h]
    show eulerToMatrix _ * _ = _
    rw [eulerToMatrix_z, eulerToMatrix_z, eulerToMatrix_z, ← Rz_add,
      show (reduceAxis (Real.pi / 4 - eps) (sign c) c).2 * (Real.pi / 2) +
          (reduceAxis (Real.pi / 4 - eps) (sign c) c).1 = c from by linarith]

/-- C2 (amended): for every rotation, the residual satisfies
`|x|, |y| <= pi/2` and `|z| <= pi/4 + eps`; the step component is an
exact integer multiple of 90 degrees per axis and is `None` exactly
when all extracted step counts are zero; and for single-axis rotations
(the claim's recomposition property restricted to where it holds)
composing the step rotation with the residual reproduces the input
orientation exactly. -/
theorem C2_reduced_rotation_amended (r : Euler3) :
    (|(get_reduced_rotation r).1.x| ≤ Real.pi / 2 ∧
     |(get_reduced_rotation r).1.y| ≤ Real.pi / 2 ∧
     |(get_reduced_rotation r).1.z| ≤ Real.pi / 4 + eps) ∧
    (∃ m n p : ℤ,
      (get_reduced_rotation r).2 =
        (if m = 0 ∧ n = 0 ∧ p = 0 then none
         else some ⟨(m : ℝ) * (Real.pi / 2), (n : ℝ) * (Real.pi / 2),
                    (p : ℝ) * (Real.pi / 2)⟩)) ∧
    (r.y = 0 ∧ r.z = 0 →
      stepsMatrix (get_reduced_rotation r).2 * eulerToMatrix (get_reduced_rotation r).1 =
        eulerToMatrix r) ∧
    (r.x = 0 ∧ r.z = 0 →
      stepsMatrix (get_reduced_rotation r).2 * eulerToMatrix (get_reduced_rotation r).1 =
        eulerToMatrix r) ∧
    (r.x = 0 ∧ r.y = 0 →
      stepsMatrix (get_reduced_rotation r).2 * eulerToMatrix (get_reduced_rotation r).1 =
        eulerToMatrix r) := by
  refine ⟨?_, ?_, ?_, ?_, ?_⟩
  · rw [get_reduced_residual]
    refine ⟨?_, ?_, ?_⟩
    · have h := reduceAxis_residual_bound (Real.pi / 2 - eps) (sign r.x)
        (le_of_lt thresh_xy_pos) r.x rfl
      have h2 : max (Real.pi / 2 - eps) (Real.pi / 2 - (Real.pi / 2 - eps)) ≤ Real.pi / 2 := by
        apply max_le
        · linarith [eps_pos]
        · linarith [eps_le_half_pi]
      exact le_trans h h2
    · have h := reduceAxis_residual_bound (Real.pi / 2 - eps) (sign r.y)
        (le_of_lt thresh_xy_pos) r.y rfl
      have h2 : max (Real.pi / 2 - eps) (Real.pi / 2 - (Real.pi / 2 - eps)) ≤ Real.pi / 2 := by
        apply max_le
        · linarith [eps_pos]
        · linarith [eps_le_half_pi]
      exact le_trans h h2
    · have h := reduceAxis_residual_bound (Real.pi / 4 - eps) (sign r.z)
        (le_of_lt thresh_z_pos) r.z rfl
      have h2 : max (Real.pi / 4 - eps) (Real.pi / 2 - (Real.pi / 4 - eps)) ≤
          Real.pi / 4 + eps := by
        apply max_le
        · linarith [eps_pos]
        · linarith [eps_pos]
      exact le_trans h h2
  · obtain ⟨m, hm⟩ := reduceAxis_steps_int (Real.pi / 2 - eps) (sign r.x) r.x
    obtain ⟨n, hn⟩ := reduceAxis_steps_int (Real.pi / 2 - eps) (sign r.y) r.y
    obtain ⟨p, hp⟩ := reduceAxis_steps_int (Real.pi / 4 - eps) (sign r.z) r.z
    refine ⟨m, n, p, ?_⟩
    unfold get_reduced_rotation
    dsimp only
    rw [hm, hn, hp]
    by_cases hc : m = 0 ∧ n = 0 ∧ p = 0
    · obtain ⟨h1, h2, h3⟩ := hc
      subst h1
      subst h2
      subst h3
      simp
    · rw [if_neg hc, if_pos]
      by_contra h0
      push_neg at h0
      obtain ⟨h1, h2, h3⟩ := h0
      exact hc ⟨by exact_mod_cast h1, by exact_mod_cast h2, by exact_mod_cast h3⟩
  · rintro ⟨hy, hz⟩
    obtain ⟨rx, ry, rz⟩ := r
    simp only at hy hz
    subst hy
    subst hz
    exact single_axis_recompose_x rx
  · rintro ⟨hx, hz⟩
    obtain ⟨rx, ry, rz⟩ := r
    simp only at hx hz
    subst hx
    subst hz
    exact single_axis_recompose_y ry
  · rintro ⟨hx, hy⟩
    obtain ⟨rx, ry, rz⟩ := r
    simp only at hx hy
    subst hx
    subst hy
    exact single_axis_recompose_z rz

/-- Witness for C2 at the single-axis rotation `(pi/2, 0, 0)`. -/
theorem C2_witness :
    ((⟨Real.pi / 2, 0, 0⟩ : Euler3).y = 0 ∧ (⟨Real.pi / 2, 0, 0⟩ : Euler3).z = 0) ∧
    stepsMatrix (get_reduced_rotation ⟨Real.pi / 2, 0, 0⟩).2 *
        eulerToMatrix (get_reduced_rotation ⟨Real.pi / 2, 0, 0⟩).1 =
      eulerToMatrix ⟨Real.pi / 2, 0, 0⟩ :=
  ⟨⟨rfl, rfl⟩, (C2_reduced_rotation_amended ⟨Real.pi / 2, 0, 0⟩).2.2.1 ⟨rfl, rfl⟩⟩

theorem arcsin35_nonneg : 0 ≤ Real.arcsin (3 / 5) :=
  Real.arcsin_nonneg.mpr (by norm_num)

theorem arcsin35_lt : Real.arcsin (3 / 5) < Real.pi / 4 - eps := by
  have hsin : Real.sin (Real.arcsin (3 / 5)) = 3 / 5 :=
    Real.sin_arcsin (by norm_num) (by norm_num)
  have hq : (1.414 : ℝ) ≤ Real.sqrt 2 := by
    nlinarith [Real.sq_sqrt (show (0 : ℝ) ≤ 2 by norm_num), Real.sqrt_nonneg 2]
  have hcos_eps : 1 - eps ^ 2 / 2 ≤ Real.cos eps := Real.one_sub_sq_div_two_le_cos
  have hsin_eps : Real.sin eps ≤ eps := Real.sin_le (le_of_lt eps_pos)
  have hK : (0.999998 : ℝ) ≤ Real.cos eps - Real.sin eps := by
    unfold eps at hcos_eps hsin_eps ⊢
    nlinarith
  have hbig : Real.sin (Real.pi / 4 - eps) > 3 / 5 := by
    rw [Real.sin_sub, Real.sin_pi_div_four, Real.cos_pi_div_four]
    have hprod : (1.414 : ℝ) * 0.999998 ≤ Real.sqrt 2 * (Real.cos eps - Real.sin eps) :=
      mul_le_mul hq hK (by norm_num) (le_trans (by norm_num) hq)
    nlinarith [hprod]
  by_contra hcon
  push_neg at hcon
  have hmem1 : Real.pi / 4 - eps ∈ Set.Icc (-(Real.pi / 2)) (Real.pi / 2) := by
    constructor
    · have := Real.pi_gt_three
      have := eps_pos
      unfold eps
      linarith
    · have := Real.pi_gt_three
      have := eps_pos
      linarith
  have hmem2 := Real.arcsin_mem_Icc (3 / 5)
  have hmono := Real.strictMonoOn_sin.monotoneOn hmem1 hmem2 hcon
  rw [hsin] at hmono
  linarith

theorem reduceAxis_arcsin_x :
    reduceAxis (Real.pi / 2 - eps) (sign (Real.arcsin (3 / 5))) (Real.arcsin (3 / 5)) =
      (Real.arcsin (3 / 5), 0) := by
  rw [reduceAxis, dif_neg]
  rintro ⟨habs, -⟩
  rw [abs_of_nonneg arcsin35_nonneg] at habs
  have h1 := arcsin35_lt
  have h2 := Real.pi_gt_three
  have h3 := eps_pos
  linarith

theorem reduceAxis_arcsin_z :
    reduceAxis (Real.pi / 4 - eps) (sign (Real.arcsin (3 / 5))) (Real.arcsin (3 / 5)) =
      (Real.arcsin (3 / 5), 0) := by
  rw [reduceAxis, dif_neg]
  rintro ⟨habs, -⟩
  rw [abs_of_nonneg arcsin35_nonneg] at habs
  exact absurd habs (not_lt.mpr (le_of_lt arcsin35_lt))

theorem reduceAxis_half_pi :
    reduceAxis (Real.pi / 2 - eps) (sign (Real.pi / 2)) (Real.pi / 2) = (0, 1) := by
  have hs : sign (Real.pi / 2) = 1 := by
    unfold sign
    rw [if_pos (by positivity)]
  have hguard : |Real.pi / 2| > Real.pi / 2 - eps ∧
      sign (Real.pi / 2) = sign (Real.pi / 2) := by
    refine ⟨?_, rfl⟩
    rw [abs_of_nonneg (by positivity)]
    have := eps_pos
    linarith
  rw [reduceAxis, dif_pos hguard, hs]
  rw [show Real.pi / 2 - 1 * (Real.pi / 2) = 0 by ring]
  rw [reduceAxis_zero _ _ thresh_xy_pos]
  norm_num

theorem get_reduced_counterexample_eval :
    get_reduced_rotation ⟨Real.arcsin (3 / 5), Real.pi / 2, Real.arcsin (3 / 5)⟩ =
      (⟨Real.arcsin (3 / 5), 0, Real.arcsin (3 / 5)⟩, some ⟨0, Real.pi / 2, 0⟩) := by
  unfold get_reduced_rotation
  dsimp only
  rw [reduceAxis_arcsin_x, reduceAxis_half_pi, reduceAxis_arcsin_z]
  norm_num

/-- C2 counterexample: at the rotation `(arcsin(3/5), pi/2, arcsin(3/5))`
the code returns residual `(arcsin(3/5), 0, arcsin(3/5))` and steps
`(0, pi/2, 0)`, but composing the step rotation with the residual (in
either order) does not reproduce the original orientation: matrix
entries differ by `3/5`, which exceeds `1/2`. -/
theorem C2_counterexample :
    ((stepsMatrix (get_reduced_rotation
          ⟨Real.arcsin (3 / 5), Real.pi / 2, Real.arcsin (3 / 5)⟩).2 *
        eulerToMatrix (get_reduced_rotation
          ⟨Real.arcsin (3 / 5), Real.pi / 2, Real.arcsin (3 / 5)⟩).1) 0 1 -
      eulerToMatrix ⟨Real.arcsin (3 / 5), Real.pi / 2, Real.arcsin (3 / 5)⟩ 0 1 = 3 / 5) ∧
    ((eulerToMatrix (get_reduced_rotation
          ⟨Real.arcsin (3 / 5), Real.pi / 2, Real.arcsin (3 / 5)⟩).1 *
        stepsMatrix (get_reduced_rotation
          ⟨Real.arcsin (3 / 5), Real.pi / 2, Real.arcsin (3 / 5)⟩).2) 1 2 -
      eulerToMatrix ⟨Real.arcsin (3 / 5), Real.pi / 2, Real.arcsin (3 / 5)⟩ 1 2 = 3 / 5) ∧
    (3 : ℝ) / 5 > 1 / 2 := by
  have hsin : Real.sin (Real.arcsin (3 / 5)) = 3 / 5 :=
    Real.sin_arcsin (by norm_num) (by norm_num)
  have hcos : Real.cos (Real.arcsin (3 / 5)) = 4 / 5 := by
    rw [Real.cos_arcsin, show (1 : ℝ) - (3 / 5) ^ 2 = (4 / 5) ^ 2 by norm_num]
    exact Real.sqrt_sq (by norm_num)
  refine ⟨?_, ?_, by norm_num⟩
  · rw [get_reduced_counterexample_eval]
    simp only [stepsMatrix, eulerToMatrix]
    simp [Rx, Ry, Rz, Matrix.mul_apply, Fin.sum_univ_three, Matrix.vecHead, Matrix.vecTail,
      hsin, hcos, Real.cos_pi_div_two, Real.sin_pi_div_two, Real.cos_zero, Real.sin_zero]
    ring
  · rw [get_reduced_counterexample_eval]
    simp only [stepsMatrix, eulerToMatrix]
    simp [Rx, Ry, Rz, Matrix.mul_apply, Fin.sum_univ_three, Matrix.vecHead, Matrix.vecTail,
      hsin, hcos, Real.cos_pi_div_two, Real.sin_pi_div_two, Real.cos_zero, Real.sin_zero]
    ring

end VS
